import Mathlib

/-!
Shallow embedding of pyclewn's `clewn/buffer.py` (the Vim-buffer /
annotation-tracking module).

The Python classes `Buffer`, `Annotation`, `FrameAnnotation` and
`BufferSet` are modelled as Lean structures, and their methods as pure
functions threading an explicit global state `NBState`.  The protocol
sink (`nbsock`, from the `netbeans` module which is not part of the
sources) is modelled from the spec: a serial-number allocator yielding a
fresh strictly increasing identifier per call, three background-color
tokens, and a `send_cmd` that appends the command to a trace.

Python's source class `Annotation` is rendered here as `Anno` and
`FrameAnnotation` as `FrameAnno` (the original names are not usable
verbatim in this file); every method keeps its source name.

Python exceptions are modelled with a result type `Res` that carries the
state at raise time, matching Python semantics where mutations performed
before a raise persist.
-/

/-- Annotation identifiers.  In the source an `anno_id` is an arbitrary
dictionary key; the reserved value `FRAME_ANNO_ID = 'frame'` denotes the
frame annotation, and breakpoint ids are the decimal breakpoint numbers
(they are formatted with `%d` in `define_bpanno`, so they are integers).
We model the id space as the frame id plus natural-number breakpoint
ids. -/
inductive AnnoId where
  | frame : AnnoId
  | bp (n : Nat) : AnnoId
deriving DecidableEq, Repr

/-- The commands sent through `nbsock.send_cmd`, with the arguments of
their literal format strings:
`editFile "<path>"`, `putBufferNumber "<path>"`, `stopDocumentListen`,
`defineAnnoType 0 "<key>" "" "<label>" none <color>`,
`addAnno <serial> <typeNum> <line>/0 -1`, `removeAnno <serial>`,
`setDot <line>/0`. -/
inductive Cmd where
  | editFile (path : String) : Cmd
  | putBufferNumber (path : String) : Cmd
  | stopDocListen : Cmd
  | defineAnnoType (key : Nat) (label : String) (color : String) : Cmd
  | addAnno (sernum : Nat) (typeNum : Nat) (lnum : Int) : Cmd
  | removeAnno (sernum : Nat) : Cmd
  | setDot (lnum : Int) : Cmd
deriving DecidableEq, Repr

/-- Python exceptions raised by the module: `ValueError`, `KeyError`,
`AssertionError` (from `assert`), and `AttributeError` (attribute access
on `None`; only on paths unreachable through the public interface). -/
inductive Err where
  | valueError (msg : String) : Err
  | keyError (msg : String) : Err
  | assertionError : Err
  | attributeError : Err
deriving DecidableEq, Repr

/-- Source class `Annotation`: a netbeans breakpoint annotation. -/
structure Anno where
  bp : Nat
  lnum : Int
  disabled : Bool
  sernum : Nat
  enabled_sernum : Nat
  disabled_sernum : Nat
  enabled_typeNum : Nat
  disabled_typeNum : Nat
  is_set : Bool
  defined : Bool
deriving DecidableEq, Repr

/-- Source class `FrameAnnotation`: the unique frame annotation, owned
by the netbeans sink (`nbsock.frame_annotation`).  Its host buffer is
referenced by name. -/
structure FrameAnno where
  bufName : Option String
  lnum : Int
  is_set : Bool
  sernum : Nat
deriving DecidableEq, Repr

/-- An entry of a Buffer's annotation dictionary: either a reference to
the shared frame annotation object, or an owned breakpoint
annotation. -/
inductive AnnoEntry where
  | frameRef : AnnoEntry
  | anno (a : Anno) : AnnoEntry
deriving DecidableEq, Repr

/-- Source class `Buffer`: one Vim buffer; a dictionary of annotations
`{anno_id: annotation}` plus the netbeans bookkeeping attributes.  The
dictionary is modelled as an insertion-ordered association list. -/
structure Buffer where
  name : String
  buf_id : Nat
  registered : Bool
  lnum : Option Int
  col : Option Int
  last_typeNum : Nat
  frame_typeNum : Nat
  annos : List (AnnoId × AnnoEntry)
deriving DecidableEq, Repr

/-- The global state: the `BufferSet` (its `buf_list`, which also
determines the pathname dictionary since buffer names are the keys, and
its `anno_dict`), the frame annotation singleton, and the modelled
netbeans sink (serial counter, background colors, `last_buf`, and the
trace of sent commands, each tagged with the target buffer's name). -/
structure NBState where
  buffers : List Buffer
  anno_dict : List (AnnoId × String)
  frame : FrameAnno
  sernum : Nat
  bg0 : String
  bg1 : String
  bg2 : String
  lastBuf : Option String
  trace : List (String × Cmd)
deriving DecidableEq, Repr

/-- Result of an operation that may raise: the state at raise time is
kept, as in Python where mutations before a raise persist. -/
inductive Res (α : Type) where
  | ok (a : α) (st : NBState) : Res α
  | err (e : Err) (st : NBState) : Res α
deriving DecidableEq, Repr

/-- Association-list lookup (first binding wins; keys are unique in all
the dictionaries we model). -/
def lookupA {β : Type} : List (AnnoId × β) → AnnoId → Option β
  | [], _ => none
  | (k, v) :: t, a => if k = a then some v else lookupA t a

/-- Association-list assignment with Python dict semantics: an existing
key keeps its position, a new key is appended. -/
def setA {β : Type} : List (AnnoId × β) → AnnoId → β → List (AnnoId × β)
  | [], a, b => [(a, b)]
  | (k, v) :: t, a, b => if k = a then (k, b) :: t else (k, v) :: setA t a b

/-- Association-list key removal (`del d[k]`). -/
def removeA {β : Type} : List (AnnoId × β) → AnnoId → List (AnnoId × β)
  | [], _ => []
  | (k, v) :: t, a => if k = a then t else (k, v) :: removeA t a

/-- The keys of an association list, in insertion order. -/
def keysA {β : Type} (l : List (AnnoId × β)) : List AnnoId := l.map Prod.fst

/-- `os.path.isabs` on POSIX: the path starts with a slash. -/
def isabs (s : String) : Bool :=
  match s.toList with
  | '/' :: _ => true
  | _ => false

/-- A `\w` word character of the `re` module (ASCII interpretation). -/
def isWordChar (c : Char) : Bool := c.isAlphanum || c = '_'

/-- A `\s` whitespace character of the `re` module. -/
def isPySpace (c : Char) : Bool :=
  c = ' ' || c = '\t' || c = '\n' || c = '\x0d' || c = '\x0b' || c = '\x0c'

/-- The trailing part `\w+$` of `RE_CLEWNAME`: one or more word
characters, optionally followed by one final newline (Python's `$` also
matches just before a trailing newline). -/
def wordPlusEnd (cs : List Char) : Bool :=
  let ws := cs.takeWhile isWordChar
  let rest := cs.dropWhile isWordChar
  !ws.isEmpty && (rest.isEmpty || rest = ['\n'])

/-- The literal marker `(clewn)_` of `RE_CLEWNAME`. -/
def clewnMark : List Char := ['(', 'c', 'l', 'e', 'w', 'n', ')', '_']

/-- Does the second list start with the first one? -/
def leadsWith : List Char → List Char → Bool
  | [], _ => true
  | _ :: _, [] => false
  | p :: ps, c :: cs => p = c && leadsWith ps cs

/-- Does `cs` start with `(clewn)_` followed by a valid `\w+$` tail? -/
def splitsHere (cs : List Char) : Bool :=
  leadsWith clewnMark cs && wordPlusEnd (cs.drop clewnMark.length)

/-- Matching of `RE_CLEWNAME = ^\s*(?P<path>.*)\(clewn\)_\w+$` after the
leading `\s*` has been consumed: returns the `path` group of the match,
or `none` when there is no match.  The greedy `.*` selects the last
occurrence of `(clewn)_` whose tail is `\w+$`; `.` does not match a
newline, so the path group may not contain one. -/
def findClewnPath : List Char → Option (List Char)
  | [] => none
  | c :: rest =>
    match (if c = '\n' then none
           else (findClewnPath rest).map (fun p => c :: p)) with
    | some p => some p
    | none => if splitsHere (c :: rest) then some [] else none

/-- Source `is_clewnbuf(bufname)`: `re_clewname.match(bufname)` succeeds
and the `path` group is empty or exists on disk.  The filesystem is an
oracle parameter `fs` standing for `os.path.exists`. -/
def is_clewnbuf (fs : String → Bool) (bufname : String) : Bool :=
  match findClewnPath (bufname.toList.dropWhile isPySpace) with
  | none => false
  | some p => p.isEmpty || fs (String.mk p)

/-- `str(bp)[-2:]`: the last two characters of the decimal breakpoint
number (the whole string when shorter). -/
def lastTwo (s : String) : String :=
  String.mk ((s.toList.reverse.take 2).reverse)

/-- Look up a Buffer by pathname (the `BufferSet` dictionary; buffer
names are unique, so the first match is the buffer). -/
def NBState.findBuf (st : NBState) (nm : String) : Option Buffer :=
  st.buffers.find? (fun b => b.name == nm)

/-- Replace the buffer named `nm` by `f` applied to it (in-place object
mutation in the source). -/
def NBState.modBuf (st : NBState) (nm : String) (f : Buffer → Buffer) : NBState :=
  { st with buffers := st.buffers.map (fun b => if b.name == nm then f b else b) }

/-- `nbsock.send_cmd(buf, cmd, args)`: append the command to the trace,
tagged with the target buffer's name. -/
def sendCmd (st : NBState) (nm : String) (c : Cmd) : NBState :=
  { st with trace := st.trace ++ [(nm, c)] }

/-- Modelled from the spec: the serial-number allocator of the netbeans
sink (`nbsock.sernum.last`, from the `misc`/`netbeans` modules which are
not among the sources) yields a fresh, strictly increasing identifier
per call. -/
def allocSernum (st : NBState) : Nat × NBState :=
  (st.sernum + 1, { st with sernum := st.sernum + 1 })

/-- Source `Buffer.get_typeNum` (the `last_typeNum` property): return a
unique typeNum by pre-incrementing the per-buffer counter. -/
def Buffer.get_typeNum (b : Buffer) : Nat × Buffer :=
  (b.last_typeNum + 1, { b with last_typeNum := b.last_typeNum + 1 })

/-- Source `Buffer.define_frameanno`: allocate and declare the frame
marker type on first request, cached in `frame_typeNum`. -/
def Buffer.define_frameanno (st : NBState) (bname : String) : NBState :=
  match st.findBuf bname with
  | none => st
  | some b =>
    if b.frame_typeNum = 0 then
      let tb := Buffer.get_typeNum b
      let st := st.modBuf bname (fun _ => { tb.2 with frame_typeNum := tb.1 })
      sendCmd st bname (Cmd.defineAnnoType 0 "=>" st.bg2)
    else st

/-- Source `Annotation.define_bpanno`: declare the enabled/disabled
marker-type pair, keyed `2*bp` and `2*bp+1`, with label `str(bp)[-2:]`,
at most once per annotation (gated by `defined`). -/
def Anno.define_bpanno (st : NBState) (bname : String) (a : Anno) : NBState × Anno :=
  if a.defined then (st, a)
  else
    let a := { a with defined := true }
    let st := sendCmd st bname
      (Cmd.defineAnnoType (2 * a.bp) (lastTwo (Nat.repr a.bp)) st.bg0)
    let st := sendCmd st bname
      (Cmd.defineAnnoType (2 * a.bp + 1) (lastTwo (Nat.repr a.bp)) st.bg1)
    (st, a)

/-- Source `Annotation.remove_anno`: when the owning buffer is
registered and the marker is placed, send `removeAnno` with the active
serial; in all cases clear `is_set`. -/
def Anno.remove_anno (st : NBState) (bname : String) (a : Anno) : NBState × Anno :=
  let reg := match st.findBuf bname with
             | some b => b.registered
             | none => false
  let st := if reg && a.is_set then sendCmd st bname (Cmd.removeAnno a.sernum) else st
  (st, { a with is_set := false })

/-- Source `Annotation.update(disabled=False)`: toggle removal when the
disabled flag changes, then (if not placed) declare the marker types,
place the variant matching the current disabled flag, update the host
buffer's cached cursor through `nbsock.last_buf`, and send `setDot`. -/
def Anno.update (st : NBState) (bname : String) (a : Anno) (disabled : Bool) :
    NBState × Anno :=
  let p := if a.disabled != disabled then
             let q := Anno.remove_anno st bname a
             (q.1, { q.2 with disabled := disabled })
           else (st, a)
  let st := p.1
  let a := p.2
  if a.is_set then (st, a)
  else
    let q := Anno.define_bpanno st bname a
    let st := q.1
    let a := q.2
    let r := if a.disabled then ({ a with sernum := a.disabled_sernum }, a.disabled_typeNum)
             else ({ a with sernum := a.enabled_sernum }, a.enabled_typeNum)
    let a := r.1
    let typeNum := r.2
    let st := sendCmd st bname (Cmd.addAnno a.sernum typeNum a.lnum)
    let st := { st with lastBuf := some bname }
    let st := st.modBuf bname (fun b => { b with lnum := some a.lnum, col := some 0 })
    let st := sendCmd st bname (Cmd.setDot a.lnum)
    (st, { a with is_set := true })

/-- Source `FrameAnnotation.update`: if not placed, declare the frame
marker type on the host buffer, place the frame there, update the cached
cursor, and send `setDot`.  The `disabled` parameter of the source is
ignored by this override. -/
def FrameAnno.update (st : NBState) : Res Unit :=
  let f := st.frame
  if f.is_set then Res.ok () st
  else
    match f.bufName with
    | none => Res.err Err.attributeError st
    | some nm =>
      let st := Buffer.define_frameanno st nm
      let ftn := match st.findBuf nm with
                 | some b => b.frame_typeNum
                 | none => 0
      let st := sendCmd st nm (Cmd.addAnno f.sernum ftn f.lnum)
      let st := { st with lastBuf := some nm }
      let st := st.modBuf nm (fun b => { b with lnum := some f.lnum, col := some 0 })
      let st := sendCmd st nm (Cmd.setDot f.lnum)
      Res.ok () { st with frame := { st.frame with is_set := true } }

/-- The frame annotation's `remove_anno` is inherited from the source
`Annotation.remove_anno`; it reads `self.buf.registered` (an
`AttributeError` when the frame has no host yet). -/
def FrameAnno.remove_anno (st : NBState) : Res Unit :=
  let f := st.frame
  match f.bufName with
  | none => Res.err Err.attributeError st
  | some nm =>
    let reg := match st.findBuf nm with
               | some b => b.registered
               | none => false
    let st := if reg && f.is_set then sendCmd st nm (Cmd.removeAnno f.sernum) else st
    Res.ok () { st with frame := { st.frame with is_set := false } }

/-- `self[anno_id].update(...)` dispatched on the entry: a breakpoint
entry runs `Anno.update` and stores the mutated object back; the frame
entry runs the shared frame object's update (which operates on the
frame's own host buffer).  A missing id is a Python `KeyError`. -/
def updateEntry (st : NBState) (bname : String) (id : AnnoId) (disabled : Bool) :
    Res Unit :=
  match st.findBuf bname with
  | none => Res.err Err.attributeError st
  | some b =>
    match lookupA b.annos id with
    | none => Res.err (Err.keyError "anno_id") st
    | some AnnoEntry.frameRef => FrameAnno.update st
    | some (AnnoEntry.anno a) =>
      let p := Anno.update st bname a disabled
      Res.ok () (p.1.modBuf bname
        (fun bb => { bb with annos := setA bb.annos id (AnnoEntry.anno p.2) }))

/-- The `for anno_id in self.keys(): self[anno_id].update()` loop of
`Buffer.update` (note the defaulted `disabled=False` argument). -/
def bulkUpdate (st : NBState) (bname : String) : List AnnoId → Res Unit
  | [] => Res.ok () st
  | id :: t =>
    match updateEntry st bname id false with
    | Res.ok _ st' => bulkUpdate st' bname t
    | Res.err e st' => Res.err e st'

/-- Source `Buffer.update(anno_id=None, disabled=False)`: register the
buffer with netbeans exactly once (sending `editFile`,
`putBufferNumber`, `stopDocumentListen`), then update the single given
annotation with the given disabled flag, or every annotation with the
defaulted `disabled=False` when the id is omitted. -/
def Buffer.update (st : NBState) (bname : String) (oid : Option AnnoId)
    (disabled : Bool) : Res Unit :=
  match st.findBuf bname with
  | none => Res.err Err.attributeError st
  | some b =>
    let st := if !b.registered then
        let st := sendCmd st bname (Cmd.editFile b.name)
        let st := sendCmd st bname (Cmd.putBufferNumber b.name)
        let st := sendCmd st bname Cmd.stopDocListen
        st.modBuf bname (fun bb => { bb with registered := true })
      else st
    match oid with
    | some id => updateEntry st bname id disabled
    | none => bulkUpdate st bname (keysA b.annos)

/-- Source `Buffer.add_anno(anno_id, lnum)`: a new id constructs an
`Annotation` (or rebinds the shared frame annotation when the id is the
frame id); an existing id only has its line updated.  Always finishes
with `self.update(anno_id)` (defaulted `disabled=False`). -/
def Buffer.add_anno (st : NBState) (bname : String) (id : AnnoId) (l : Int) :
    Res Unit :=
  match st.findBuf bname with
  | none => Res.err Err.attributeError st
  | some b =>
    let st :=
      match lookupA b.annos id with
      | none =>
        match id with
        | AnnoId.frame =>
          let st := { st with frame :=
            { st.frame with bufName := some bname, lnum := l, is_set := false } }
          st.modBuf bname (fun bb =>
            { bb with annos := setA bb.annos id AnnoEntry.frameRef })
        | AnnoId.bp n =>
          let s1 := allocSernum st
          let s2 := allocSernum s1.2
          let st := s2.2
          let t1 := Buffer.get_typeNum b
          let t2 := Buffer.get_typeNum t1.2
          let a : Anno :=
            { bp := n, lnum := l, disabled := false,
              sernum := s1.1, enabled_sernum := s1.1, disabled_sernum := s2.1,
              enabled_typeNum := t1.1, disabled_typeNum := t2.1,
              is_set := false, defined := false }
          st.modBuf bname (fun _ =>
            { t2.2 with annos := setA t2.2.annos id (AnnoEntry.anno a) })
      | some AnnoEntry.frameRef =>
        { st with frame := { st.frame with lnum := l } }
      | some (AnnoEntry.anno a) =>
        st.modBuf bname (fun bb =>
          { bb with annos := setA bb.annos id (AnnoEntry.anno { a with lnum := l }) })
    Buffer.update st bname (some id) false

/-- Source `Buffer.delete_anno(anno_id)`: assert the id is present, run
the annotation's `remove_anno`, and drop the dictionary entry only when
the id is the frame id. -/
def Buffer.delete_anno (st : NBState) (bname : String) (id : AnnoId) : Res Unit :=
  match st.findBuf bname with
  | none => Res.err Err.attributeError st
  | some b =>
    match lookupA b.annos id with
    | none => Res.err Err.assertionError st
    | some AnnoEntry.frameRef =>
      match FrameAnno.remove_anno st with
      | Res.err e st' => Res.err e st'
      | Res.ok _ st' =>
        Res.ok () (if id = AnnoId.frame then
            st'.modBuf bname (fun bb => { bb with annos := removeA bb.annos id })
          else st')
    | some (AnnoEntry.anno a) =>
      let p := Anno.remove_anno st bname a
      let st' := p.1.modBuf bname
        (fun bb => { bb with annos := setA bb.annos id (AnnoEntry.anno p.2) })
      Res.ok () (if id = AnnoId.frame then
          st'.modBuf bname (fun bb => { bb with annos := removeA bb.annos id })
        else st')

/-- A fresh Buffer, as constructed by `BufferSet.__getitem__`:
`Buffer(pathname, len(self.buf_list) + 1, self.nbsock)`. -/
def newBuffer (nm : String) (bid : Nat) : Buffer :=
  { name := nm, buf_id := bid, registered := false, lnum := none, col := none,
    last_typeNum := 0, frame_typeNum := 0, annos := [] }

/-- Source `BufferSet.__getitem__(pathname)`: reject a pathname that is
neither absolute nor a clewn buffer name; otherwise return the buffer,
lazily creating (and appending to `buf_list`) a new one. -/
def BufferSet.getitem (fs : String → Bool) (st : NBState) (pathname : String) :
    Res Unit :=
  if !(isabs pathname) && !(is_clewnbuf fs pathname) then
    Res.err (Err.valueError "pathname is not an absolute path") st
  else
    match st.findBuf pathname with
    | some _ => Res.ok () st
    | none =>
      Res.ok () { st with buffers :=
        st.buffers ++ [newBuffer pathname (st.buffers.length + 1)] }

/-- Source `BufferSet.add_anno(anno_id, pathname, lnum)`: validate the
line and the pathname (absolute only), resolve or create the buffer,
record `anno_id -> buffer` in the global `anno_dict`, and delegate to
`Buffer.add_anno`. -/
def BufferSet.add_anno (fs : String → Bool) (st : NBState) (id : AnnoId)
    (pathname : String) (l : Int) : Res Unit :=
  if l ≤ 0 then Res.err (Err.valueError "lnum must be strictly positive") st
  else if !(isabs pathname) then
    Res.err (Err.valueError "pathname is not an absolute path") st
  else
    match BufferSet.getitem fs st pathname with
    | Res.err e st' => Res.err e st'
    | Res.ok _ st' =>
      let st' := { st' with anno_dict := setA st'.anno_dict id pathname }
      Buffer.add_anno st' pathname id l

/-- Source `BufferSet.update_anno(anno_id, disabled=False)`: `KeyError`
when the id is unregistered, otherwise delegate to the owning buffer's
update. -/
def BufferSet.update_anno (st : NBState) (id : AnnoId) (disabled : Bool) :
    Res Unit :=
  match lookupA st.anno_dict id with
  | none => Res.err (Err.keyError "anno_id does not exist") st
  | some nm => Buffer.update st nm (some id) disabled

/-- Source `BufferSet.delete_anno(anno_id)`: `KeyError` when the id is
unregistered, otherwise delegate to the owning buffer's delete and drop
the `anno_dict` entry. -/
def BufferSet.delete_anno (st : NBState) (id : AnnoId) : Res Unit :=
  match lookupA st.anno_dict id with
  | none => Res.err (Err.keyError "anno_id does not exist") st
  | some nm =>
    match Buffer.delete_anno st nm id with
    | Res.err e st' => Res.err e st'
    | Res.ok _ st' => Res.ok () { st' with anno_dict := removeA st'.anno_dict id }

/-- Source `BufferSet.show_frame(pathname=None, lnum=1)`: validate the
line, delete the currently registered frame annotation if any, then
re-create it at the new location when `pathname` is truthy (neither
`None` nor the empty string). -/
def BufferSet.show_frame (fs : String → Bool) (st : NBState)
    (pathname : Option String) (l : Int) : Res Unit :=
  if l ≤ 0 then Res.err (Err.valueError "lnum must be strictly positive") st
  else
    match (if (lookupA st.anno_dict AnnoId.frame).isSome then
             BufferSet.delete_anno st AnnoId.frame
           else Res.ok () st) with
    | Res.err e st' => Res.err e st'
    | Res.ok _ st' =>
      match pathname with
      | some p =>
        if p = "" then Res.ok () st'
        else BufferSet.add_anno fs st' AnnoId.frame p l
      | none => Res.ok () st'

/-- Source `BufferSet.add_bp(bp_id, pathname, lnum)`: validate the line
and delegate to `add_anno` with the breakpoint id. -/
def BufferSet.add_bp (fs : String → Bool) (st : NBState) (n : Nat)
    (pathname : String) (l : Int) : Res Unit :=
  if l ≤ 0 then Res.err (Err.valueError "lnum must be strictly positive") st
  else BufferSet.add_anno fs st (AnnoId.bp n) pathname l

/-- Source `BufferSet.update_bp(bp_id, disabled=False)`: `True` after a
successful `update_anno`; `False` (plus a logged warning, not modelled)
when the id is unknown. -/
def BufferSet.update_bp (st : NBState) (id : AnnoId) (disabled : Bool) :
    Res Bool :=
  if (lookupA st.anno_dict id).isSome then
    match BufferSet.update_anno st id disabled with
    | Res.ok _ st' => Res.ok true st'
    | Res.err e st' => Res.err e st'
  else Res.ok false st

/-- The `for anno_id in list(self.anno_dict.keys()): self.delete_anno(anno_id)`
loop of `BufferSet.remove_all`, over a snapshot of the keys. -/
def deleteList (st : NBState) : List AnnoId → Res Unit
  | [] => Res.ok () st
  | id :: t =>
    match BufferSet.delete_anno st id with
    | Res.ok _ st' => deleteList st' t
    | Res.err e st' => Res.err e st'

/-- Source `BufferSet.remove_all()`: delete every annotation id found in
the global `anno_dict` (its docstring: Vim signs are unplaced,
annotations are not deleted). -/
def BufferSet.remove_all (st : NBState) : Res Unit :=
  deleteList st (keysA st.anno_dict)

/-- The initial global state: empty buffer set, empty `anno_dict`, and
the frame annotation singleton as built by `FrameAnnotation.__init__`
(modelled from the spec for its construction site in the `netbeans`
module: it consumes one serial number at startup). -/
def initState (c0 c1 c2 : String) : NBState :=
  { buffers := [], anno_dict := [],
    frame := { bufName := none, lnum := 0, is_set := false, sernum := 1 },
    sernum := 1, bg0 := c0, bg1 := c1, bg2 := c2,
    lastBuf := none, trace := [] }

/-- The public operations of the module, as invoked by the external
event dispatcher. -/
inductive Op where
  | add_anno (id : AnnoId) (path : String) (l : Int) : Op
  | add_bp (n : Nat) (path : String) (l : Int) : Op
  | update_anno (id : AnnoId) (d : Bool) : Op
  | update_bp (id : AnnoId) (d : Bool) : Op
  | delete_anno (id : AnnoId) : Op
  | show_frame (p : Option String) (l : Int) : Op
  | remove_all : Op
  | getitem (path : String) : Op
  | buf_update (path : String) (oid : Option AnnoId) (d : Bool) : Op
deriving DecidableEq, Repr

/-- Run one public operation (discarding any returned value). -/
def runOp (fs : String → Bool) (st : NBState) : Op → Res Unit
  | Op.add_anno id p l => BufferSet.add_anno fs st id p l
  | Op.add_bp n p l => BufferSet.add_bp fs st n p l
  | Op.update_anno id d => BufferSet.update_anno st id d
  | Op.update_bp id d =>
    match BufferSet.update_bp st id d with
    | Res.ok _ st' => Res.ok () st'
    | Res.err e st' => Res.err e st'
  | Op.delete_anno id => BufferSet.delete_anno st id
  | Op.show_frame p l => BufferSet.show_frame fs st p l
  | Op.remove_all => BufferSet.remove_all st
  | Op.getitem p => BufferSet.getitem fs st p
  | Op.buf_update p oid d => Buffer.update st p oid d

/-- States reachable from the initial state by successful public
operations. -/
inductive Reachable (fs : String → Bool) (c0 c1 c2 : String) : NBState → Prop where
  | init : Reachable fs c0 c1 c2 (initState c0 c1 c2)
  | step {st st' : NBState} {op : Op} (h : Reachable fs c0 c1 c2 st)
      (hr : runOp fs st op = Res.ok () st') : Reachable fs c0 c1 c2 st'

/-- The state carried by a result (the final state on success, the state
at raise time on failure). -/
def stOf {α : Type} : Res α → NBState
  | Res.ok _ s => s
  | Res.err _ s => s

/-- Did the operation succeed? -/
def Res.isOk {α : Type} : Res α → Bool
  | Res.ok _ _ => true
  | Res.err _ _ => false

/-- Is the annotation id present in the named buffer's annotation
dictionary? -/
def hasAnno (st : NBState) (nm : String) (id : AnnoId) : Bool :=
  match st.findBuf nm with
  | some b => (lookupA b.annos id).isSome
  | none => false

/-- The breakpoint annotation stored under an id in the named buffer, if
any. -/
def getAnno (st : NBState) (nm : String) (id : AnnoId) : Option Anno :=
  match st.findBuf nm with
  | some b =>
    match lookupA b.annos id with
    | some (AnnoEntry.anno a) => some a
    | _ => none
  | none => none

/-- The non-frame annotation ids of a buffer, in insertion order. -/
def bpKeys (b : Buffer) : List AnnoId :=
  (keysA b.annos).filter (fun id =>
    match id with
    | AnnoId.frame => false
    | AnnoId.bp _ => true)

/-- Iterated marker-type allocation on one buffer: the list of the next
`n` values returned by the `last_typeNum` property. -/
def allocs (b : Buffer) : Nat → List Nat × Buffer
  | 0 => ([], b)
  | n + 1 =>
    let p := Buffer.get_typeNum b
    let q := allocs p.2 n
    (p.1 :: q.1, q.2)

/-- The three registration commands (`editFile`, `putBufferNumber`,
`stopDocumentListen`). -/
def isRegCmd : Cmd → Bool
  | Cmd.editFile _ => true
  | Cmd.putBufferNumber _ => true
  | Cmd.stopDocListen => true
  | _ => false

/-- A marker command (`defineAnnoType`, `addAnno`, `removeAnno`,
`setDot`). -/
def isMarkerCmd (c : Cmd) : Bool := !(isRegCmd c)

/-- The commands sent for one buffer, in emission order. -/
def bufTrace (st : NBState) (nm : String) : List Cmd :=
  (st.trace.filter (fun e => e.1 == nm)).map Prod.snd

/-- The registration-command block sent for a buffer on first update. -/
def regCmds (nm : String) : List Cmd :=
  [Cmd.editFile nm, Cmd.putBufferNumber nm, Cmd.stopDocListen]

/-- Per-buffer trace shape: an unregistered (or nonexistent) buffer has
an empty trace; a registered buffer's trace is the registration block
followed by marker commands only. -/
def TS (st : NBState) : Prop :=
  ∀ nm : String,
    ((st.findBuf nm = none ∨ ∃ b, st.findBuf nm = some b ∧ b.registered = false) →
      bufTrace st nm = []) ∧
    (∀ b, st.findBuf nm = some b → b.registered = true →
      ∃ t, bufTrace st nm = regCmds nm ++ t ∧ ∀ c ∈ t, isMarkerCmd c = true)

/-- Is the named buffer currently registered with netbeans? -/
def regOf (st : NBState) (nm : String) : Bool :=
  match st.findBuf nm with
  | some b => b.registered
  | none => false

/-- Marker-only trace extension: the registration status of every name
is unchanged and the trace grows only by marker commands aimed at
buffers already registered. -/
def MExt (st st' : NBState) : Prop :=
  (∀ nm, regOf st' nm = regOf st nm) ∧
  ∃ tail, st'.trace = st.trace ++ tail ∧
    ∀ e ∈ tail, isMarkerCmd e.2 = true ∧ regOf st e.1 = true

/-- The frame annotation's host buffer, whenever a host is set, is an
existing registered buffer. -/
def FrameHostReg (st : NBState) : Prop :=
  ∀ h, st.frame.bufName = some h → regOf st h = true

/-- The invariant carried along reachable states for the command
ordering property. -/
def TraceInv (st : NBState) : Prop := TS st ∧ FrameHostReg st

/-- Buffer names are pairwise distinct. -/
def NamesNodup (st : NBState) : Prop := (st.buffers.map (fun b => b.name)).Nodup

/-- The global annotation registry has pairwise distinct keys. -/
def DictNodup (st : NBState) : Prop := (keysA st.anno_dict).Nodup

/-- Frame coherence: a buffer holding the frame entry is the buffer the
global registry maps the frame id to. -/
def FrameCoherent (st : NBState) : Prop :=
  ∀ b ∈ st.buffers, (lookupA b.annos AnnoId.frame).isSome = true →
    lookupA st.anno_dict AnnoId.frame = some b.name

/-- Every buffer's annotation dictionary has pairwise distinct keys. -/
def AnnosNodup (st : NBState) : Prop := ∀ b ∈ st.buffers, (keysA b.annos).Nodup

/-- Well-formedness bundle used by the frame lifecycle claims. -/
def WF (st : NBState) : Prop :=
  NamesNodup st ∧ DictNodup st ∧ AnnosNodup st ∧ FrameCoherent st

/-- The annotation-id key list of the buffer found under a name. -/
def annoKeys (st : NBState) (nm : String) : Option (List AnnoId) :=
  (st.findBuf nm).map (fun b => keysA b.annos)

/-- Structure-preservation between two states: every buffer keeps its
annotation-id keys, the global registry is unchanged, the buffer name
list is unchanged, and per-buffer key uniqueness is preserved. -/
def KP (st st' : NBState) : Prop :=
  (∀ nm, annoKeys st' nm = annoKeys st nm) ∧
  st'.anno_dict = st.anno_dict ∧
  st'.buffers.map (fun b => b.name) = st.buffers.map (fun b => b.name) ∧
  (AnnosNodup st → AnnosNodup st')

/-- A filesystem oracle on which no path exists. -/
def fs0 : String → Bool := fun _ => false

/-- A concrete initial state with distinct background-color tokens. -/
def st0 : NBState := initState "c0" "c1" "c2"

/-- The state after `add_anno('b1', '/a', 1)` on the empty set (the
breakpoint id rendered as 1). -/
def c1st1 : NBState := stOf (BufferSet.add_anno fs0 st0 (AnnoId.bp 1) "/a" 1)

/-- The state after re-adding the same id under the different path
`/b`. -/
def c1st2 : NBState := stOf (BufferSet.add_anno fs0 c1st1 (AnnoId.bp 1) "/b" 1)

/-- The state after `add_bp(1, '/a', 5)` on the empty set. -/
def c2base : NBState := stOf (BufferSet.add_bp fs0 st0 1 "/a" 5)

/-- ... then `update_bp(1, disabled=True)`: the breakpoint is disabled
with its disabled marker variant placed. -/
def c2st : NBState := stOf (BufferSet.update_bp c2base (AnnoId.bp 1) true)

/-- ... then the bulk `Buffer.update()` with the id omitted. -/
def c2out : NBState := stOf (Buffer.update c2st "/a" none false)

/-- The state after `show_frame('/a', 3)` on the empty set. -/
def c4st1 : NBState := stOf (BufferSet.show_frame fs0 st0 (some "/a") 3)

/-- ... then `show_frame('/b', 7)`. -/
def c4st2 : NBState := stOf (BufferSet.show_frame fs0 c4st1 (some "/b") 7)

/-- The state after `add_bp(1, '/tmp/a.c', 10)` on the empty set (the
scenario of the spec with the breakpoint id rendered as 1). -/
def c6res : NBState := stOf (BufferSet.add_bp fs0 st0 1 "/tmp/a.c" 10)

/-- A breakpoint annotation that is placed (`is_set`). -/
def c8anno : Anno :=
  { bp := 1, lnum := 4, disabled := false, sernum := 2, enabled_sernum := 2,
    disabled_sernum := 3, enabled_typeNum := 1, disabled_typeNum := 2,
    is_set := true, defined := true }

/-- An unregistered buffer holding that annotation. -/
def c8buf : Buffer :=
  { name := "/x", buf_id := 1, registered := false, lnum := none, col := none,
    last_typeNum := 2, frame_typeNum := 0,
    annos := [(AnnoId.bp 1, AnnoEntry.anno c8anno)] }

/-- A state whose only buffer is unregistered while its annotation is
marked placed. -/
def c8st : NBState :=
  { buffers := [c8buf], anno_dict := [(AnnoId.bp 1, "/x")],
    frame := { bufName := none, lnum := 0, is_set := false, sernum := 1 },
    sernum := 3, bg0 := "c0", bg1 := "c1", bg2 := "c2",
    lastBuf := none, trace := [] }

/-- The same state with the buffer registered, for the placed case. -/
def c8stReg : NBState :=
  { c8st with buffers := [{ c8buf with registered := true }] }

/-- The state after `add_bp(1, '/a', 5)` then `BufferSet.remove_all()`. -/
def c10st : NBState := stOf (BufferSet.remove_all c2base)

theorem lookupA_setA_self {β : Type} (l : List (AnnoId × β)) (k : AnnoId) (v : β) :
    lookupA (setA l k v) k = some v := by
  induction l with
  | nil => simp [setA, lookupA]
  | cons p t ih =>
    obtain ⟨k0, v0⟩ := p
    by_cases h : k0 = k
    · simp [setA, h, lookupA]
    · simp [setA, h, lookupA, ih]

theorem lookupA_setA_other {β : Type} (l : List (AnnoId × β)) (k k' : AnnoId) (v : β)
    (h : k' ≠ k) : lookupA (setA l k v) k' = lookupA l k' := by
  induction l with
  | nil => simp [setA, lookupA, Ne.symm h]
  | cons p t ih =>
    obtain ⟨k0, v0⟩ := p
    by_cases h0 : k0 = k
    · subst h0
      simp [setA, lookupA, Ne.symm h]
    · simp [setA, h0, lookupA, ih]

theorem keysA_setA {β : Type} (l : List (AnnoId × β)) (k : AnnoId) (v : β)
    (h : (lookupA l k).isSome = true) : keysA (setA l k v) = keysA l := by
  induction l with
  | nil => simp [lookupA] at h
  | cons p t ih =>
    obtain ⟨k0, v0⟩ := p
    by_cases h0 : k0 = k
    · simp [setA, h0, keysA]
    · simp [lookupA, h0, Ne.symm] at h
      have := ih (by simpa [lookupA, h0] using h)
      simp [setA, h0, keysA] at this ⊢
      exact this

/-- C8: the claim fails as stated: on an annotation whose marker is
placed while its buffer is unregistered, `remove_anno` issues no command
but still clears the placed flag, so the state is not left unchanged. -/
theorem c8_counterexample :
    (Anno.remove_anno c8st "/x" c8anno).1.trace = c8st.trace ∧
    (Anno.remove_anno c8st "/x" c8anno).2.is_set = false ∧
    c8anno.is_set = true := by
  exact ⟨by decide, by decide, by decide⟩

/-- C8 amended: `remove_anno` sends `removeAnno` with the active serial
and clears the placed flag when the owning buffer is registered and the
marker is placed; otherwise it sends nothing; when the marker was not
placed the annotation is unchanged, but in the (publicly unreachable)
unregistered-yet-placed state the placed flag is still cleared. -/
theorem c8_amended (st : NBState) (bname : String) (a : Anno) (b : Buffer)
    (hb : st.findBuf bname = some b) :
    (b.registered = true → a.is_set = true →
      Anno.remove_anno st bname a =
        (sendCmd st bname (Cmd.removeAnno a.sernum), { a with is_set := false })) ∧
    (b.registered = false ∨ a.is_set = false →
      (Anno.remove_anno st bname a).1 = st) ∧
    (Anno.remove_anno st bname a).2 = { a with is_set := false } ∧
    (a.is_set = false → (Anno.remove_anno st bname a).2 = a) := by
  unfold Anno.remove_anno
  rw [hb]
  refine ⟨?_, ?_, ?_, ?_⟩
  · intro hr hs
    simp [hr, hs]
  · intro h
    rcases h with h | h <;> simp [h]
  · simp
  · intro h
    cases a
    simp_all

/-- C8 witness: the amended theorem applied to a concrete registered
buffer with a placed annotation. -/
theorem c8_witness :
    c8stReg.findBuf "/x" = some { c8buf with registered := true } ∧
    (({ c8buf with registered := true } : Buffer).registered = true →
      c8anno.is_set = true →
      Anno.remove_anno c8stReg "/x" c8anno =
        (sendCmd c8stReg "/x" (Cmd.removeAnno c8anno.sernum),
         { c8anno with is_set := false })) ∧
    (({ c8buf with registered := true } : Buffer).registered = false ∨
        c8anno.is_set = false →
      (Anno.remove_anno c8stReg "/x" c8anno).1 = c8stReg) ∧
    (Anno.remove_anno c8stReg "/x" c8anno).2 = { c8anno with is_set := false } ∧
    (c8anno.is_set = false → (Anno.remove_anno c8stReg "/x" c8anno).2 = c8anno) :=
  ⟨by decide, (c8_amended c8stReg "/x" c8anno { c8buf with registered := true }
      (by decide)).1,
   (c8_amended c8stReg "/x" c8anno { c8buf with registered := true } (by decide)).2.1,
   (c8_amended c8stReg "/x" c8anno { c8buf with registered := true } (by decide)).2.2.1,
   (c8_amended c8stReg "/x" c8anno { c8buf with registered := true } (by decide)).2.2.2⟩

/-- C5: for an id absent from the global registry, `update_bp` returns
False with the state (and thus the command trace) unchanged,
`update_anno` raises `KeyError`, and `delete_anno` raises `KeyError`
with the state unchanged. -/
theorem c5_unknown (st : NBState) (id : AnnoId) (d : Bool)
    (h : lookupA st.anno_dict id = none) :
    BufferSet.update_bp st id d = Res.ok false st ∧
    BufferSet.update_anno st id d =
      Res.err (Err.keyError "anno_id does not exist") st ∧
    BufferSet.delete_anno st id =
      Res.err (Err.keyError "anno_id does not exist") st := by
  unfold BufferSet.update_bp BufferSet.update_anno BufferSet.delete_anno
  simp [h]

/-- C5 witness: applied to the empty state and id 7. -/
theorem c5_witness :
    lookupA st0.anno_dict (AnnoId.bp 7) = none ∧
    (BufferSet.update_bp st0 (AnnoId.bp 7) true = Res.ok false st0 ∧
     BufferSet.update_anno st0 (AnnoId.bp 7) true =
       Res.err (Err.keyError "anno_id does not exist") st0 ∧
     BufferSet.delete_anno st0 (AnnoId.bp 7) =
       Res.err (Err.keyError "anno_id does not exist") st0) :=
  ⟨by decide, c5_unknown st0 (AnnoId.bp 7) true (by decide)⟩

/-- C1: the claim fails as stated: after `add_anno(1, '/a', 1)` then
`add_anno(1, '/b', 1)`, the id 1 is stored in both buffers' annotation
dictionaries while the global registry maps it to `/b` only. -/
theorem c1_counterexample :
    lookupA c1st2.anno_dict (AnnoId.bp 1) = some "/b" ∧
    hasAnno c1st2 "/a" (AnnoId.bp 1) = true ∧
    hasAnno c1st2 "/b" (AnnoId.bp 1) = true := by
  exact ⟨by decide, by decide, by decide⟩

/-- C2: the claim fails as stated: after `add_bp(1, '/a', 5)` and
`update_bp(1, disabled=True)` the stored flag is disabled, but the bulk
`Buffer.update()` with the id omitted switches the annotation to the
enabled variant (flag cleared, enabled serial active). -/
theorem c2_counterexample :
    (getAnno c2st "/a" (AnnoId.bp 1)).map (fun a => a.disabled) = some true ∧
    (getAnno c2out "/a" (AnnoId.bp 1)).map (fun a => a.disabled) = some false ∧
    (getAnno c2out "/a" (AnnoId.bp 1)).map (fun a => a.sernum) =
      (getAnno c2out "/a" (AnnoId.bp 1)).map (fun a => a.enabled_sernum) := by
  exact ⟨by decide, by decide, by decide⟩

/-- C2 amended: `Buffer.update` with the id omitted updates every
annotation with the defaulted `disabled=False` (the result is
independent of the `disabled` argument), so an annotation whose stored
disabled flag is true does not keep the disabled variant:
`Annotation.update(False)` on it clears the flag, activates the enabled
serial, and places the enabled variant. -/
theorem c2_amended :
    (∀ (st : NBState) (bname : String) (a : Anno), a.disabled = true →
      (Anno.update st bname a false).2.disabled = false ∧
      (Anno.update st bname a false).2.is_set = true ∧
      (Anno.update st bname a false).2.sernum = a.enabled_sernum) ∧
    (∀ (st : NBState) (bname : String) (d d' : Bool),
      Buffer.update st bname none d = Buffer.update st bname none d') := by
  constructor
  · intro st bname a ha
    unfold Anno.update Anno.remove_anno Anno.define_bpanno
    simp [ha]
    split <;> simp
  · intro st bname d d'
    unfold Buffer.update
    cases h : st.findBuf bname <;> simp

/-- C2 witness: the amended theorem applied at the concrete disabled
annotation reached by the counterexample scenario. -/
theorem c2_witness :
    ({ c8anno with disabled := true } : Anno).disabled = true ∧
    ((Anno.update c8st "/x" { c8anno with disabled := true } false).2.disabled
        = false ∧
      (Anno.update c8st "/x" { c8anno with disabled := true } false).2.is_set
        = true ∧
      (Anno.update c8st "/x" { c8anno with disabled := true } false).2.sernum
        = ({ c8anno with disabled := true } : Anno).enabled_sernum) :=
  ⟨by decide, c2_amended.1 c8st "/x" { c8anno with disabled := true } (by decide)⟩

/-- C3: the claim fails as stated: `(clewn)_console` is a valid clewn
buffer name, yet `BufferSet.add_anno` rejects it with the
invalid-argument error (only `__getitem__` accepts it). -/
theorem c3_counterexample :
    is_clewnbuf fs0 "(clewn)_console" = true ∧
    BufferSet.add_anno fs0 st0 (AnnoId.bp 1) "(clewn)_console" 1 =
      Res.err (Err.valueError "pathname is not an absolute path") st0 ∧
    (BufferSet.getitem fs0 st0 "(clewn)_console").isOk = true := by
  exact ⟨by decide, by decide, by decide⟩

/-- C3 amended: `BufferSet.add_anno` accepts only absolute target paths
and fails with the invalid-argument error on any other path, clewn
buffer names included; the clewn-name pattern is accepted (along with
absolute paths) by the buffer lookup `BufferSet.__getitem__`. -/
theorem c3_amended (fs : String → Bool) (st st2 : NBState) (id : AnnoId)
    (p q : String) (l : Int) (hl : 0 < l) (hp : isabs p = false)
    (hq : isabs q = true ∨ is_clewnbuf fs q = true) :
    BufferSet.add_anno fs st id p l =
      Res.err (Err.valueError "pathname is not an absolute path") st ∧
    (BufferSet.getitem fs st2 q).isOk = true := by
  constructor
  · unfold BufferSet.add_anno
    rw [if_neg (not_le.mpr hl), hp]
    simp
  · unfold BufferSet.getitem
    rcases hq with h | h <;>
      simp [h] <;> cases st2.findBuf q <;> simp [Res.isOk]

/-- C3 witness: the amended theorem applied at the concrete clewn-buffer
name. -/
theorem c3_witness :
    (0 : Int) < 1 ∧ isabs "(clewn)_console" = false ∧
    (isabs "/tmp/a.c" = true ∨ is_clewnbuf fs0 "/tmp/a.c" = true) ∧
    (BufferSet.add_anno fs0 st0 (AnnoId.bp 2) "(clewn)_console" 1 =
       Res.err (Err.valueError "pathname is not an absolute path") st0 ∧
     (BufferSet.getitem fs0 st0 "/tmp/a.c").isOk = true) :=
  ⟨by decide, by decide, Or.inl (by decide),
   c3_amended fs0 st0 st0 (AnnoId.bp 2) "(clewn)_console" "/tmp/a.c" 1
     (by decide) (by decide) (Or.inl (by decide))⟩

/-- C6: the claim fails as stated: the scenario allocates marker-type
ids 1 and 2 (not 2 and 3) from the fresh per-buffer counter, which then
stands at 2 (so the next allocation yields 3, not 4). -/
theorem c6_counterexample :
    (getAnno c6res "/tmp/a.c" (AnnoId.bp 1)).map
      (fun a => (a.enabled_typeNum, a.disabled_typeNum)) = some (1, 2) ∧
    ¬ ((getAnno c6res "/tmp/a.c" (AnnoId.bp 1)).map
        (fun a => (a.enabled_typeNum, a.disabled_typeNum)) = some (2, 3)) ∧
    (c6res.findBuf "/tmp/a.c").map (fun b => b.last_typeNum) = some 2 := by
  exact ⟨by decide, by decide, by decide⟩

/-- C6 amended: `add_bp(1, '/tmp/a.c', 10)` on the empty set creates the
buffer with ordinal id 1, allocates marker-type ids 1 and 2 from its
fresh counter (next allocation yields 3), and emits the three
registration commands followed by exactly two `defineAnnoType` commands
whose declared keys 2 and 3 come from `2*id` and `2*id+1` (label: the
last two characters of the decimal id), then one `addAnno` (with the
enabled serial and type 1) and one `setDot`. -/
theorem c6_amended :
    (c6res.findBuf "/tmp/a.c").map (fun b => b.buf_id) = some 1 ∧
    (getAnno c6res "/tmp/a.c" (AnnoId.bp 1)).map
      (fun a => (a.enabled_typeNum, a.disabled_typeNum)) = some (1, 2) ∧
    (c6res.findBuf "/tmp/a.c").map (fun b => b.last_typeNum) = some 2 ∧
    c6res.trace =
      [("/tmp/a.c", Cmd.editFile "/tmp/a.c"),
       ("/tmp/a.c", Cmd.putBufferNumber "/tmp/a.c"),
       ("/tmp/a.c", Cmd.stopDocListen),
       ("/tmp/a.c", Cmd.defineAnnoType 2 "1" "c0"),
       ("/tmp/a.c", Cmd.defineAnnoType 3 "1" "c1"),
       ("/tmp/a.c", Cmd.addAnno 2 1 10),
       ("/tmp/a.c", Cmd.setDot 10)] := by
  exact ⟨by decide, by decide, by decide, by decide⟩

/-- C10: the claim fails as stated: after `add_bp(1, '/a', 5)`,
`BufferSet.remove_all` empties the global registry and unplaces the
marker, but the breakpoint Annotation object is still stored in the
buffer's annotation dictionary (it is not destroyed). -/
theorem c10_counterexample :
    c10st.anno_dict = [] ∧
    hasAnno c10st "/a" (AnnoId.bp 1) = true ∧
    (getAnno c10st "/a" (AnnoId.bp 1)).map (fun a => a.is_set) = some false ∧
    c10st.buffers.map (fun b => b.name) = ["/a"] := by
  exact ⟨by decide, by decide, by decide, by decide⟩

theorem allocs_eq_range (b : Buffer) (n : Nat) :
    (allocs b n).1 = List.range' (b.last_typeNum + 1) n ∧
    (allocs b n).2.last_typeNum = b.last_typeNum + n := by
  induction n generalizing b with
  | zero => simp [allocs, List.range']
  | succ m ih =>
    have h := ih { b with last_typeNum := b.last_typeNum + 1 }
    simp [allocs, Buffer.get_typeNum, List.range'] at h ⊢
    refine ⟨h.1, by omega⟩

theorem find_map_name (l : List Buffer) (nm nm' : String) (f : Buffer → Buffer)
    (hf : ∀ x, x.name = nm → (f x).name = x.name) :
    (l.map (fun b => if b.name == nm then f b else b)).find?
        (fun b => b.name == nm') =
      (l.find? (fun b => b.name == nm')).map
        (fun b => if b.name == nm then f b else b) := by
  induction l with
  | nil => rfl
  | cons b t ih =>
    have hhead : ((if b.name == nm then f b else b) : Buffer).name = b.name := by
      by_cases hbn : b.name = nm
      · simp [hbn, hf b hbn]
      · simp [hbn]
    rw [List.map_cons]
    by_cases hb' : b.name = nm'
    · rw [List.find?_cons_of_pos _
            (by simp only [hhead]; simp only [beq_iff_eq]; exact hb'),
          List.find?_cons_of_pos _ (by simp only [beq_iff_eq]; exact hb')]
      simp
    · rw [List.find?_cons_of_neg _
            (by simp only [hhead]; simp only [beq_iff_eq]; exact hb'),
          List.find?_cons_of_neg _ (by simp only [beq_iff_eq]; exact hb')]
      exact ih

theorem findBuf_modBuf (st : NBState) (nm nm' : String) (f : Buffer → Buffer)
    (hf : ∀ x, x.name = nm → (f x).name = x.name) :
    (st.modBuf nm f).findBuf nm' =
      (st.findBuf nm').map (fun b => if b.name == nm then f b else b) := by
  unfold NBState.modBuf NBState.findBuf
  exact find_map_name st.buffers nm nm' f hf

theorem findBuf_sendCmd (st : NBState) (nm nm' : String) (c : Cmd) :
    (sendCmd st nm c).findBuf nm' = st.findBuf nm' := rfl

theorem findBuf_name (st : NBState) (nm : String) (b : Buffer)
    (h : st.findBuf nm = some b) : b.name = nm := by
  unfold NBState.findBuf at h
  have := List.find?_some h
  simpa using this

/-- C7: a buffer's marker-type counter is strictly increasing with no
value returned twice: from a fresh buffer the successive `last_typeNum`
values are exactly 1, 2, ..., n; one allocation returns and stores
`last_typeNum + 1`; and `define_frameanno` allocates the frame marker
type from this same counter only when `frame_typeNum` is still 0, a
second request on the same buffer being a no-op. -/
theorem c7_counter (st : NBState) (bname : String) (b bz : Buffer) (n : Nat)
    (hz : bz.last_typeNum = 0) (hb : st.findBuf bname = some b) :
    ((allocs bz n).1 = List.range' 1 n ∧ (allocs bz n).1.Nodup) ∧
    (Buffer.get_typeNum b).1 = b.last_typeNum + 1 ∧
    (Buffer.get_typeNum b).2.last_typeNum = b.last_typeNum + 1 ∧
    (b.frame_typeNum ≠ 0 → Buffer.define_frameanno st bname = st) ∧
    (b.frame_typeNum = 0 →
      ∃ b', (Buffer.define_frameanno st bname).findBuf bname = some b' ∧
        b'.frame_typeNum = b.last_typeNum + 1 ∧
        b'.last_typeNum = b.last_typeNum + 1 ∧
        Buffer.define_frameanno (Buffer.define_frameanno st bname) bname =
          Buffer.define_frameanno st bname) := by
  have hrange := allocs_eq_range bz n
  refine ⟨⟨by rw [hrange.1, hz], ?_⟩, rfl, rfl, ?_, ?_⟩
  · rw [hrange.1]
    exact List.nodup_range' _ _
  · intro hne
    unfold Buffer.define_frameanno
    rw [hb]
    simp [hne]
  · intro h0
    have hname : b.name = bname := findBuf_name st bname b hb
    have hfb : (Buffer.define_frameanno st bname).findBuf bname =
        some { b with last_typeNum := b.last_typeNum + 1,
                      frame_typeNum := b.last_typeNum + 1 } := by
      unfold Buffer.define_frameanno
      rw [hb]
      simp only [h0, if_pos]
      rw [findBuf_sendCmd, findBuf_modBuf]
      · rw [hb]
        simp [hname, Buffer.get_typeNum]
      · intro x hx
        simp [Buffer.get_typeNum, hname, hx]
    refine ⟨_, hfb, rfl, rfl, ?_⟩
    conv_lhs => rw [Buffer.define_frameanno.eq_def]
    rw [hfb]
    simp

/-- C7 witness: applied to a fresh buffer for 3 allocations and to a
concrete buffer for the frame-marker requests. -/
theorem c7_witness :
    (newBuffer "/w" 1).last_typeNum = 0 ∧
    c8st.findBuf "/x" = some c8buf ∧
    (((allocs (newBuffer "/w" 1) 3).1 = List.range' 1 3 ∧
        (allocs (newBuffer "/w" 1) 3).1.Nodup) ∧
      (Buffer.get_typeNum c8buf).1 = c8buf.last_typeNum + 1 ∧
      (Buffer.get_typeNum c8buf).2.last_typeNum = c8buf.last_typeNum + 1 ∧
      (c8buf.frame_typeNum ≠ 0 → Buffer.define_frameanno c8st "/x" = c8st) ∧
      (c8buf.frame_typeNum = 0 →
        ∃ b', (Buffer.define_frameanno c8st "/x").findBuf "/x" = some b' ∧
          b'.frame_typeNum = c8buf.last_typeNum + 1 ∧
          b'.last_typeNum = c8buf.last_typeNum + 1 ∧
          Buffer.define_frameanno (Buffer.define_frameanno c8st "/x") "/x" =
            Buffer.define_frameanno c8st "/x")) :=
  ⟨by decide, by decide,
   c7_counter c8st "/x" c8buf (newBuffer "/w" 1) 3 (by decide) (by decide)⟩

theorem removeA_of_keys_cons {β : Type} (l : List (AnnoId × β)) (k : AnnoId)
    (t : List AnnoId) (h : keysA l = k :: t) :
    ∃ v rest, l = (k, v) :: rest ∧ removeA l k = rest ∧ keysA rest = t := by
  cases l with
  | nil => simp [keysA] at h
  | cons p rest =>
    obtain ⟨k0, v0⟩ := p
    simp [keysA] at h
    refine ⟨v0, rest, ?_, ?_, ?_⟩
    · rw [h.1]
    · simp [removeA, h.1]
    · simpa [keysA] using h.2

theorem bpKeys_annos_removeA_frame (b : Buffer) (l : List (AnnoId × AnnoEntry)) :
    bpKeys { b with annos := removeA l AnnoId.frame } =
      bpKeys { b with annos := l } := by
  induction l with
  | nil => rfl
  | cons p t ih =>
    obtain ⟨k, v⟩ := p
    by_cases hk : k = AnnoId.frame
    · subst hk
      simp [removeA, bpKeys, keysA]
    · simp only [bpKeys, keysA] at ih ⊢
      simp [removeA, hk, List.filter]
      cases k with
      | frame => simp at hk
      | bp n => simpa using ih

theorem bpKeys_annos_setA (b : Buffer) (l : List (AnnoId × AnnoEntry))
    (k : AnnoId) (v : AnnoEntry) (h : (lookupA l k).isSome = true) :
    bpKeys { b with annos := setA l k v } = bpKeys { b with annos := l } := by
  simp only [bpKeys]
  rw [show keysA (setA l k v) = keysA l from keysA_setA l k v h]

theorem anno_remove_anno_skel (st : NBState) (bname : String) (a : Anno) :
    (Anno.remove_anno st bname a).1.buffers = st.buffers ∧
    (Anno.remove_anno st bname a).1.anno_dict = st.anno_dict := by
  unfold Anno.remove_anno
  split <;> (dsimp only; split <;> simp [sendCmd])

theorem frame_remove_anno_skel (st st' : NBState)
    (h : FrameAnno.remove_anno st = Res.ok () st') :
    st'.buffers = st.buffers ∧ st'.anno_dict = st.anno_dict := by
  unfold FrameAnno.remove_anno at h
  cases hbn : st.frame.bufName with
  | none => simp only [hbn] at h; exact absurd h (by simp)
  | some nm =>
    simp only [hbn] at h
    split at h <;> (simp only [Res.ok.injEq, true_and] at h; rw [← h]; simp [sendCmd])

theorem modBuf_names (st : NBState) (nm : String) (f : Buffer → Buffer)
    (hf : ∀ x, x.name = nm → (f x).name = x.name) :
    (st.modBuf nm f).buffers.map (fun b => b.name) =
      st.buffers.map (fun b => b.name) := by
  unfold NBState.modBuf
  simp only [List.map_map]
  apply List.map_congr_left
  intro b _
  by_cases hb : b.name = nm
  · simp [hb, hf b hb]
  · simp [hb]

theorem findBuf_congr (st1 st2 : NBState) (h : st1.buffers = st2.buffers)
    (nm : String) : st1.findBuf nm = st2.findBuf nm := by
  unfold NBState.findBuf
  rw [h]

theorem modBuf_bpKeys_pres (st : NBState) (bname : String) (f : Buffer → Buffer)
    (hf : ∀ x, (f x).name = x.name)
    (hbp : ∀ x, st.findBuf bname = some x → bpKeys (f x) = bpKeys x) :
    ∀ nm, ((st.modBuf bname f).findBuf nm).map bpKeys =
      (st.findBuf nm).map bpKeys := by
  intro nm
  rw [findBuf_modBuf st bname nm f (fun x _ => hf x)]
  cases hx : st.findBuf nm with
  | none => rfl
  | some x =>
    by_cases hxb : x.name = bname
    · have hnb : nm = bname := by rw [← findBuf_name st nm x hx, hxb]
      subst hnb
      simp [hxb, hbp x hx]
    · simp [hxb]

theorem delete_remove_pres (st : NBState) (bname : String) :
    ∀ nm, ((st.modBuf bname (fun bb =>
        { bb with annos := removeA bb.annos AnnoId.frame })).findBuf nm).map
        bpKeys = (st.findBuf nm).map bpKeys :=
  modBuf_bpKeys_pres st bname _ (fun _ => rfl)
    (fun x _ => bpKeys_annos_removeA_frame x x.annos)

theorem delete_set_pres (st : NBState) (bname : String) (id : AnnoId)
    (b : Buffer) (e : AnnoEntry) (hfb : st.findBuf bname = some b)
    (hlk : lookupA b.annos id = some e) (v : AnnoEntry) :
    ∀ nm, ((st.modBuf bname (fun bb =>
        { bb with annos := setA bb.annos id v })).findBuf nm).map bpKeys =
      (st.findBuf nm).map bpKeys :=
  modBuf_bpKeys_pres st bname _ (fun x => rfl)
    (fun x hx => by
      rw [hfb] at hx
      cases hx
      exact bpKeys_annos_setA b b.annos id v (by rw [hlk]; rfl))

theorem buffer_delete_anno_pres (st st' : NBState) (bname : String) (id : AnnoId)
    (h : Buffer.delete_anno st bname id = Res.ok () st') :
    st'.anno_dict = st.anno_dict ∧
    st'.buffers.map (fun b => b.name) = st.buffers.map (fun b => b.name) ∧
    ∀ nm, (st'.findBuf nm).map bpKeys = (st.findBuf nm).map bpKeys := by
  unfold Buffer.delete_anno at h
  cases hfb : st.findBuf bname with
  | none => simp only [hfb] at h; exact absurd h (by simp)
  | some b =>
    simp only [hfb] at h
    cases hlk : lookupA b.annos id with
    | none => simp only [hlk] at h; exact absurd h (by simp)
    | some e =>
      simp only [hlk] at h
      cases e with
      | frameRef =>
        cases hfr : FrameAnno.remove_anno st with
        | err e2 st2 =>
          simp only [hfr] at h
          exact absurd h (by simp)
        | ok u st2 =>
          obtain ⟨⟩ := u
          simp only [hfr, Res.ok.injEq, true_and] at h
          obtain ⟨hb2, hd2⟩ := frame_remove_anno_skel st st2 hfr
          subst h
          by_cases hid : id = AnnoId.frame
          · subst hid
            rw [if_pos rfl]
            refine ⟨hd2, ?_, ?_⟩
            · rw [modBuf_names st2 bname
                    (fun bb => { bb with annos := removeA bb.annos AnnoId.frame })
                    (fun x _ => rfl), hb2]
            · intro nm
              rw [delete_remove_pres st2 bname nm, findBuf_congr st2 st hb2]
          · rw [if_neg hid]
            exact ⟨hd2, by rw [hb2], fun nm => by rw [findBuf_congr st2 st hb2]⟩
      | anno a =>
        simp only [Res.ok.injEq, true_and] at h
        obtain ⟨hb1, hd1⟩ := anno_remove_anno_skel st bname a
        subst h
        have hfb1 : (Anno.remove_anno st bname a).1.findBuf bname = some b := by
          rw [findBuf_congr _ st hb1]
          exact hfb
        have hset := delete_set_pres (Anno.remove_anno st bname a).1 bname id b
          (AnnoEntry.anno a) hfb1
          (by rw [findBuf_congr _ st hb1] at hfb1
              exact hlk)
          (AnnoEntry.anno (Anno.remove_anno st bname a).2)
        by_cases hid : id = AnnoId.frame
        · subst hid
          rw [if_pos rfl]
          refine ⟨hd1, ?_, ?_⟩
          · rw [modBuf_names _ bname
                  (fun bb => { bb with annos := removeA bb.annos AnnoId.frame })
                  (fun x _ => rfl),
                modBuf_names _ bname
                  (fun bb => { bb with
                    annos := setA bb.annos AnnoId.frame (AnnoEntry.anno (Anno.remove_anno st bname a).2) })
                  (fun x _ => rfl), hb1]
          · intro nm
            rw [delete_remove_pres _ bname nm, hset nm,
                findBuf_congr _ st hb1]
        · rw [if_neg hid]
          refine ⟨hd1, ?_, ?_⟩
          · rw [modBuf_names _ bname
                  (fun bb => { bb with
                    annos := setA bb.annos id (AnnoEntry.anno (Anno.remove_anno st bname a).2) })
                  (fun x _ => rfl), hb1]
          · intro nm
            rw [hset nm, findBuf_congr _ st hb1]

theorem bufferset_delete_anno_pres (st st' : NBState) (id : AnnoId)
    (h : BufferSet.delete_anno st id = Res.ok () st') :
    st'.anno_dict = removeA st.anno_dict id ∧
    st'.buffers.map (fun b => b.name) = st.buffers.map (fun b => b.name) ∧
    ∀ nm, (st'.findBuf nm).map bpKeys = (st.findBuf nm).map bpKeys := by
  unfold BufferSet.delete_anno at h
  cases hlk : lookupA st.anno_dict id with
  | none => simp only [hlk] at h; exact absurd h (by simp)
  | some nm0 =>
    simp only [hlk] at h
    cases hbd : Buffer.delete_anno st nm0 id with
    | err e st1 => simp only [hbd] at h; exact absurd h (by simp)
    | ok u st1 =>
      obtain ⟨⟩ := u
      simp only [hbd, Res.ok.injEq, true_and] at h
      obtain ⟨hd, hn, hk⟩ := buffer_delete_anno_pres st st1 nm0 id hbd
      subst h
      exact ⟨by rw [hd], hn, hk⟩

theorem deleteList_pres (l : List AnnoId) (st st' : NBState)
    (hkeys : keysA st.anno_dict = l) (h : deleteList st l = Res.ok () st') :
    st'.anno_dict = [] ∧
    st'.buffers.map (fun b => b.name) = st.buffers.map (fun b => b.name) ∧
    ∀ nm, (st'.findBuf nm).map bpKeys = (st.findBuf nm).map bpKeys := by
  induction l generalizing st with
  | nil =>
    unfold deleteList at h
    simp only [Res.ok.injEq, true_and] at h
    subst h
    refine ⟨?_, rfl, fun nm => rfl⟩
    cases hd : st.anno_dict with
    | nil => rfl
    | cons p r => rw [hd] at hkeys; simp [keysA] at hkeys
  | cons k t ih =>
    unfold deleteList at h
    cases hda : BufferSet.delete_anno st k with
    | err e st1 => simp only [hda] at h; exact absurd h (by simp)
    | ok u st1 =>
      obtain ⟨⟩ := u
      simp only [hda] at h
      obtain ⟨hd, hn, hk⟩ := bufferset_delete_anno_pres st st1 k hda
      obtain ⟨v, rest, hsplit, hrem, hkr⟩ :=
        removeA_of_keys_cons st.anno_dict k t hkeys
      have hkeys1 : keysA st1.anno_dict = t := by rw [hd, hrem, hkr]
      obtain ⟨h1, h2, h3⟩ := ih st1 hkeys1 h
      exact ⟨h1, h2.trans hn, fun nm => (h3 nm).trans (hk nm)⟩

/-- C10 amended: `BufferSet.remove_all` empties the global annotation
registry, while every Buffer survives (the name list is unchanged) and
every buffer's non-frame annotation ids remain stored in its annotation
mapping: breakpoint Annotation objects are unplaced, not destroyed. -/
theorem c10_amended (st st' : NBState)
    (h : BufferSet.remove_all st = Res.ok () st') :
    st'.anno_dict = [] ∧
    st'.buffers.map (fun b => b.name) = st.buffers.map (fun b => b.name) ∧
    ∀ nm, (st'.findBuf nm).map bpKeys = (st.findBuf nm).map bpKeys :=
  deleteList_pres (keysA st.anno_dict) st st' rfl h

/-- C10 witness: the amended theorem applied to the one-breakpoint
state. -/
theorem c10_witness :
    BufferSet.remove_all c2base = Res.ok () c10st ∧
    (c10st.anno_dict = [] ∧
     c10st.buffers.map (fun b => b.name) =
       c2base.buffers.map (fun b => b.name) ∧
     ∀ nm, (c10st.findBuf nm).map bpKeys = (c2base.findBuf nm).map bpKeys) :=
  ⟨by decide, c10_amended c2base c10st (by decide)⟩

theorem lookupA_isSome_mem {β : Type} (l : List (AnnoId × β)) (k : AnnoId) :
    (lookupA l k).isSome = true ↔ k ∈ keysA l := by
  induction l with
  | nil => simp [lookupA, keysA]
  | cons p t ih =>
    obtain ⟨k0, v0⟩ := p
    by_cases h : k0 = k
    · simp [lookupA, h, keysA]
    · simp [lookupA, h, keysA, ih, Ne.symm h]

theorem isSome_eq_of_keys_eq {β γ : Type} (l1 : List (AnnoId × β))
    (l2 : List (AnnoId × γ)) (k : AnnoId) (h : keysA l1 = keysA l2) :
    (lookupA l1 k).isSome = (lookupA l2 k).isSome := by
  by_cases hm : k ∈ keysA l2
  · rw [(lookupA_isSome_mem l1 k).mpr (by rw [h]; exact hm),
        (lookupA_isSome_mem l2 k).mpr hm]
  · rw [Bool.eq_false_iff.mpr (fun hc => hm (h ▸ (lookupA_isSome_mem l1 k).mp hc)),
        Bool.eq_false_iff.mpr (fun hc => hm ((lookupA_isSome_mem l2 k).mp hc))]

theorem keysA_setA_append {β : Type} (l : List (AnnoId × β)) (k : AnnoId) (v : β)
    (h : lookupA l k = none) : keysA (setA l k v) = keysA l ++ [k] := by
  induction l with
  | nil => simp [setA, keysA]
  | cons p t ih =>
    obtain ⟨k0, v0⟩ := p
    by_cases h0 : k0 = k
    · unfold lookupA at h
      rw [if_pos h0] at h
      exact absurd h (by simp)
    · unfold lookupA at h
      rw [if_neg h0] at h
      have hih := ih h
      unfold keysA at hih ⊢
      simp [setA, h0, hih]

theorem keysA_setA_nodup {β : Type} (l : List (AnnoId × β)) (k : AnnoId) (v : β)
    (h : (keysA l).Nodup) : (keysA (setA l k v)).Nodup := by
  cases hk : lookupA l k with
  | some w => rw [keysA_setA l k v (by rw [hk]; rfl)]; exact h
  | none =>
    rw [keysA_setA_append l k v hk]
    have hnm : ¬ k ∈ keysA l := fun hm => by
      have hs := (lookupA_isSome_mem l k).mpr hm
      rw [hk] at hs
      exact absurd hs (by simp)
    simp [List.nodup_append, h, hnm]

theorem mem_keysA_removeA {β : Type} (l : List (AnnoId × β)) (k a : AnnoId)
    (h : a ∈ keysA (removeA l k)) : a ∈ keysA l := by
  induction l with
  | nil => simpa [removeA] using h
  | cons p t ih =>
    obtain ⟨k0, v0⟩ := p
    by_cases h0 : k0 = k
    · have hr : removeA ((k0, v0) :: t) k = t := by
        simp [removeA, h0]
      rw [hr] at h
      unfold keysA
      simp only [List.map_cons, List.mem_cons]
      exact Or.inr h
    · have hr : removeA ((k0, v0) :: t) k = (k0, v0) :: removeA t k := by
        simp [removeA, h0]
      rw [hr] at h
      unfold keysA at h ⊢
      simp only [List.map_cons, List.mem_cons] at h ⊢
      rcases h with h | h
      · exact Or.inl h
      · exact Or.inr (ih h)

theorem nodup_keysA_removeA {β : Type} (l : List (AnnoId × β)) (k : AnnoId)
    (h : (keysA l).Nodup) : (keysA (removeA l k)).Nodup := by
  induction l with
  | nil => simpa [removeA] using h
  | cons p t ih =>
    obtain ⟨k0, v0⟩ := p
    have hh : ¬ k0 ∈ keysA t ∧ (keysA t).Nodup := by
      unfold keysA at h ⊢
      simpa [List.nodup_cons] using h
    by_cases h0 : k0 = k
    · have hr : removeA ((k0, v0) :: t) k = t := by
        simp [removeA, h0]
      rw [hr]
      exact hh.2
    · have hr : removeA ((k0, v0) :: t) k = (k0, v0) :: removeA t k := by
        simp [removeA, h0]
      rw [hr]
      unfold keysA
      simp only [List.map_cons, List.nodup_cons]
      exact ⟨fun hm => hh.1 (mem_keysA_removeA t k k0 hm), ih hh.2⟩

theorem lookupA_removeA_self {β : Type} (l : List (AnnoId × β)) (k : AnnoId)
    (h : (keysA l).Nodup) : lookupA (removeA l k) k = none := by
  induction l with
  | nil => simp [removeA, lookupA]
  | cons p t ih =>
    obtain ⟨k0, v0⟩ := p
    have hh : ¬ k0 ∈ keysA t ∧ (keysA t).Nodup := by
      unfold keysA at h ⊢
      simpa [List.nodup_cons] using h
    by_cases h0 : k0 = k
    · have hr : removeA ((k0, v0) :: t) k = t := by
        simp [removeA, h0]
      rw [hr]
      cases hk : lookupA t k with
      | none => rfl
      | some w =>
        subst h0
        exact absurd ((lookupA_isSome_mem t k0).mp (by rw [hk]; rfl)) hh.1
    · have hr : removeA ((k0, v0) :: t) k = (k0, v0) :: removeA t k := by
        simp [removeA, h0]
      rw [hr]
      unfold lookupA
      rw [if_neg h0]
      exact ih hh.2

theorem mem_of_findBuf (st : NBState) (nm : String) (b : Buffer)
    (h : st.findBuf nm = some b) : b ∈ st.buffers := by
  unfold NBState.findBuf at h
  exact List.mem_of_find?_eq_some h

theorem find_name_of_mem_nodup (l : List Buffer) (b : Buffer)
    (hnn : (l.map (fun x => x.name)).Nodup) (hm : b ∈ l) :
    l.find? (fun x => x.name == b.name) = some b := by
  induction l with
  | nil => simp at hm
  | cons y t ih =>
    simp only [List.map_cons, List.nodup_cons] at hnn
    rcases List.mem_cons.mp hm with h | h
    · subst h
      simp [List.find?]
    · have hstep : List.find? (fun x : Buffer => x.name == b.name) (y :: t) =
          List.find? (fun x : Buffer => x.name == b.name) t :=
        List.find?_cons_of_neg t (by
          simp only [beq_iff_eq]
          intro he
          exact hnn.1 (he ▸ List.mem_map_of_mem (fun x => x.name) h))
      rw [hstep]
      exact ih hnn.2 h

theorem findBuf_of_mem_nodup (st : NBState) (b : Buffer)
    (hnn : NamesNodup st) (hm : b ∈ st.buffers) :
    st.findBuf b.name = some b := by
  unfold NBState.findBuf
  exact find_name_of_mem_nodup st.buffers b hnn hm

theorem hasAnno_congr (st st' : NBState) (nm : String) (id : AnnoId)
    (h : annoKeys st' nm = annoKeys st nm) :
    hasAnno st' nm id = hasAnno st nm id := by
  unfold hasAnno
  unfold annoKeys at h
  cases h1 : st'.findBuf nm <;> cases h2 : st.findBuf nm <;>
    rw [h1, h2] at h <;> simp at h ⊢
  exact isSome_eq_of_keys_eq _ _ id h

theorem modBuf_proj_pres {γ : Type} (g : Buffer → γ) (st : NBState)
    (bname : String) (f : Buffer → Buffer)
    (hf : ∀ x, x.name = bname → (f x).name = x.name)
    (hg : ∀ x, st.findBuf bname = some x → g (f x) = g x) :
    ∀ nm, ((st.modBuf bname f).findBuf nm).map g = (st.findBuf nm).map g := by
  intro nm
  rw [findBuf_modBuf st bname nm f hf]
  cases hx : st.findBuf nm with
  | none => rfl
  | some x =>
    by_cases hxb : x.name = bname
    · have hnb : nm = bname := by rw [← findBuf_name st nm x hx, hxb]
      subst hnb
      simp [hxb, hg x hx]
    · simp [hxb]

theorem annosNodup_buffers_eq (st st' : NBState) (h : st'.buffers = st.buffers)
    (han : AnnosNodup st) : AnnosNodup st' := by
  unfold AnnosNodup at *
  rw [h]
  exact han

theorem KP_refl (st : NBState) : KP st st := ⟨fun _ => rfl, rfl, rfl, id⟩

theorem KP_trans {s1 s2 s3 : NBState} (h1 : KP s1 s2) (h2 : KP s2 s3) :
    KP s1 s3 :=
  ⟨fun nm => (h2.1 nm).trans (h1.1 nm), h2.2.1.trans h1.2.1,
   h2.2.2.1.trans h1.2.2.1, fun han => h2.2.2.2 (h1.2.2.2 han)⟩

theorem annosNodup_modBuf2 (st : NBState) (bname : String) (f : Buffer → Buffer)
    (hnd : AnnosNodup st → ∀ x ∈ st.buffers, (keysA (f x).annos).Nodup)
    (han : AnnosNodup st) : AnnosNodup (st.modBuf bname f) := by
  intro x' hx'
  obtain ⟨x, hxm, hxe⟩ := List.mem_map.mp hx'
  rw [← hxe]
  by_cases hxb : (x.name == bname) = true
  · simp only [hxb, if_true]
    exact hnd han x hxm
  · simp only [hxb, if_false]
    exact han x hxm

theorem KP_of_buffers_eq {st st' : NBState} (hb : st'.buffers = st.buffers)
    (hd : st'.anno_dict = st.anno_dict) : KP st st' :=
  ⟨fun nm => by unfold annoKeys; rw [findBuf_congr st' st hb], hd,
   by rw [hb], annosNodup_buffers_eq st st' hb⟩

theorem KP_modBuf (st : NBState) (bname : String) (f : Buffer → Buffer)
    (hf : ∀ x, x.name = bname → (f x).name = x.name)
    (hk : ∀ x, st.findBuf bname = some x → keysA (f x).annos = keysA x.annos)
    (hnd : AnnosNodup st → ∀ x ∈ st.buffers, (keysA (f x).annos).Nodup) :
    KP st (st.modBuf bname f) :=
  ⟨modBuf_proj_pres (fun b => keysA b.annos) st bname f hf hk, rfl,
   modBuf_names st bname f hf, annosNodup_modBuf2 st bname f hnd⟩

theorem define_bpanno_KP (st : NBState) (bname : String) (a : Anno) :
    KP st (Anno.define_bpanno st bname a).1 := by
  unfold Anno.define_bpanno
  split
  · exact KP_refl st
  · exact KP_of_buffers_eq rfl rfl

theorem remove_anno_KP (st : NBState) (bname : String) (a : Anno) :
    KP st (Anno.remove_anno st bname a).1 :=
  KP_of_buffers_eq (anno_remove_anno_skel st bname a).1
    (anno_remove_anno_skel st bname a).2

theorem KP_place_chain (s : NBState) (bname : String) (c1 c2 : Cmd) (L : Int) :
    KP s (sendCmd (({ sendCmd s bname c1 with lastBuf := some bname }).modBuf
      bname (fun b => { b with lnum := some L, col := some 0 })) bname c2) := by
  refine KP_trans (@KP_of_buffers_eq s { sendCmd s bname c1 with
    lastBuf := some bname } rfl rfl) ?_
  refine KP_trans (KP_modBuf _ bname
    (fun b => { b with lnum := some L, col := some 0 })
    (fun _ _ => rfl) (fun _ _ => rfl) (fun han x hxm => han x hxm)) ?_
  exact KP_of_buffers_eq rfl rfl

theorem anno_update_KP (st : NBState) (bname : String) (a : Anno) (d : Bool) :
    KP st (Anno.update st bname a d).1 := by
  unfold Anno.update
  dsimp only
  repeat' split
  all_goals dsimp only
  all_goals first
    | exact KP_refl st
    | exact remove_anno_KP st bname a
    | exact KP_trans (define_bpanno_KP st bname a) (KP_place_chain _ bname _ _ _)
    | exact KP_trans (remove_anno_KP st bname a)
        (KP_trans (define_bpanno_KP _ bname _) (KP_place_chain _ bname _ _ _))

theorem annoKeys_modBuf_other (st : NBState) (bname nm : String)
    (f : Buffer → Buffer) (hf : ∀ x, x.name = bname → (f x).name = x.name)
    (hne : nm ≠ bname) :
    annoKeys (st.modBuf bname f) nm = annoKeys st nm := by
  unfold annoKeys
  rw [findBuf_modBuf st bname nm f hf]
  cases hx : st.findBuf nm with
  | none => rfl
  | some x =>
    have : x.name = nm := findBuf_name st nm x hx
    simp [this, hne]

theorem findBuf_modBuf_self (st : NBState) (bname : String) (b : Buffer)
    (f : Buffer → Buffer) (hf : ∀ x, x.name = bname → (f x).name = x.name)
    (hb : st.findBuf bname = some b) :
    (st.modBuf bname f).findBuf bname = some (f b) := by
  rw [findBuf_modBuf st bname bname f hf, hb]
  simp [findBuf_name st bname b hb]

theorem define_frameanno_KP (st : NBState) (bname : String) :
    KP st (Buffer.define_frameanno st bname) := by
  unfold Buffer.define_frameanno
  cases hb : st.findBuf bname with
  | none => exact KP_refl st
  | some b =>
    dsimp only
    split
    · refine KP_trans (KP_modBuf st bname _ ?_ ?_ ?_) (KP_of_buffers_eq rfl rfl)
      · intro x hx
        exact (findBuf_name st bname b hb).trans hx.symm
      · intro x hx
        rw [hb] at hx
        cases hx
        rfl
      · intro han x hxm
        exact han b (mem_of_findBuf st bname b hb)
    · exact KP_refl st

theorem KP_frame_chain (s : NBState) (nm : String) (c1 c2 : Cmd) (L : Int)
    (fr : FrameAnno) :
    KP s { sendCmd (({ sendCmd s nm c1 with lastBuf := some nm }).modBuf nm
      (fun b => { b with lnum := some L, col := some 0 })) nm c2 with
        frame := fr } := by
  refine KP_trans (@KP_of_buffers_eq s { sendCmd s nm c1 with
    lastBuf := some nm } rfl rfl) ?_
  refine KP_trans (KP_modBuf _ nm
    (fun b => { b with lnum := some L, col := some 0 })
    (fun _ _ => rfl) (fun _ _ => rfl) (fun han x hxm => han x hxm)) ?_
  exact KP_of_buffers_eq rfl rfl

theorem frame_update_KP (st : NBState) : KP st (stOf (FrameAnno.update st)) := by
  unfold FrameAnno.update
  dsimp only
  split
  · exact KP_refl st
  · split
    · exact KP_refl st
    · dsimp [stOf]
      exact KP_trans (define_frameanno_KP st _) (KP_frame_chain _ _ _ _ _ _)

theorem updateEntry_KP (st : NBState) (bname : String) (id : AnnoId) (d : Bool) :
    KP st (stOf (updateEntry st bname id d)) := by
  unfold updateEntry
  cases hb : st.findBuf bname with
  | none => exact KP_refl st
  | some b =>
    dsimp only
    cases hlk : lookupA b.annos id with
    | none => exact KP_refl st
    | some e =>
      cases e with
      | frameRef => exact frame_update_KP st
      | anno a =>
        dsimp [stOf]
        refine KP_trans (anno_update_KP st bname a d) ?_
        refine KP_modBuf _ bname _ (fun _ _ => rfl) ?_
          (fun han x hxm => keysA_setA_nodup _ _ _ (han x hxm))
        intro x hx
        have hk := (anno_update_KP st bname a d).1 bname
        unfold annoKeys at hk
        rw [hx, hb] at hk
        simp only [Option.map_some'] at hk
        have hkx : keysA x.annos = keysA b.annos := by
          injection hk
        apply keysA_setA
        rw [lookupA_isSome_mem, hkx, ← lookupA_isSome_mem, hlk]
        rfl

theorem bulkUpdate_KP (l : List AnnoId) (st : NBState) (bname : String) :
    KP st (stOf (bulkUpdate st bname l)) := by
  induction l generalizing st with
  | nil => exact KP_refl st
  | cons k t ih =>
    unfold bulkUpdate
    cases hu : updateEntry st bname k false with
    | ok u st1 =>
      have h1 : KP st st1 := by
        have h0 := updateEntry_KP st bname k false
        rw [hu] at h0
        exact h0
      exact KP_trans h1 (ih st1)
    | err e st1 =>
      have h0 := updateEntry_KP st bname k false
      rw [hu] at h0
      exact h0

theorem buffer_update_KP (st : NBState) (bname : String) (oid : Option AnnoId)
    (d : Bool) : KP st (stOf (Buffer.update st bname oid d)) := by
  unfold Buffer.update
  cases hb : st.findBuf bname with
  | none => exact KP_refl st
  | some b =>
    dsimp only
    have hreg : ∀ s : NBState, KP s ((sendCmd (sendCmd (sendCmd s bname
        (Cmd.editFile b.name)) bname (Cmd.putBufferNumber b.name)) bname
        Cmd.stopDocListen).modBuf bname
        (fun bb => { bb with registered := true })) := fun s =>
      KP_trans (KP_of_buffers_eq rfl rfl)
        (KP_modBuf _ bname (fun bb => { bb with registered := true })
          (fun _ _ => rfl) (fun _ _ => rfl) (fun han x hxm => han x hxm))
    cases oid with
    | some id =>
      by_cases hr : (!b.registered) = true
      · rw [if_pos hr]
        exact KP_trans (hreg st) (updateEntry_KP _ bname id d)
      · rw [if_neg hr]
        exact updateEntry_KP st bname id d
    | none =>
      by_cases hr : (!b.registered) = true
      · rw [if_pos hr]
        exact KP_trans (hreg st) (bulkUpdate_KP _ _ bname)
      · rw [if_neg hr]
        exact bulkUpdate_KP _ st bname

theorem find_append_of_some (l : List Buffer) (x : Buffer) (p : Buffer → Bool)
    (b : Buffer) (h : l.find? p = some b) : (l ++ [x]).find? p = some b := by
  induction l with
  | nil => simp [List.find?] at h
  | cons y t ih =>
    rw [List.cons_append]
    by_cases hy : p y = true
    · rw [List.find?_cons_of_pos _ hy] at h
      rw [List.find?_cons_of_pos _ hy]
      exact h
    · rw [List.find?_cons_of_neg _ hy] at h
      rw [List.find?_cons_of_neg _ hy]
      exact ih h

theorem findBuf_append_of_some (st : NBState) (x : Buffer) (nm : String)
    (b : Buffer) (h : st.findBuf nm = some b) :
    ({ st with buffers := st.buffers ++ [x] } : NBState).findBuf nm = some b := by
  unfold NBState.findBuf at h ⊢
  exact find_append_of_some st.buffers x _ b h

theorem getitem_pres (fs : String → Bool) (st st1 : NBState) (p : String)
    (h : BufferSet.getitem fs st p = Res.ok () st1) :
    (∀ nm b, st.findBuf nm = some b → st1.findBuf nm = some b) ∧
    st1.anno_dict = st.anno_dict := by
  unfold BufferSet.getitem at h
  split at h
  · exact absurd h (by simp)
  · cases hf : st.findBuf p with
    | some b =>
      rw [hf] at h
      simp only [Res.ok.injEq, true_and] at h
      subst h
      exact ⟨fun nm b hb => hb, rfl⟩
    | none =>
      rw [hf] at h
      simp only [Res.ok.injEq, true_and] at h
      subst h
      exact ⟨fun nm b hb => findBuf_append_of_some st _ nm b hb, rfl⟩

theorem buffer_add_anno_keys (st st' : NBState) (bname : String) (id : AnnoId)
    (l : Int) (h : Buffer.add_anno st bname id l = Res.ok () st') :
    (∀ nm, nm ≠ bname → annoKeys st' nm = annoKeys st nm) ∧
    hasAnno st' bname id = true ∧ st'.anno_dict = st.anno_dict := by
  unfold Buffer.add_anno at h
  cases hb : st.findBuf bname with
  | none => simp only [hb] at h; exact absurd h (by simp)
  | some b =>
    simp only [hb] at h
    have hbn : b.name = bname := findBuf_name st bname b hb
    have main : ∀ st2 : NBState,
        Buffer.update st2 bname (some id) false = Res.ok () st' →
        (∀ nm, nm ≠ bname → annoKeys st2 nm = annoKeys st nm) →
        hasAnno st2 bname id = true → st2.anno_dict = st.anno_dict →
        (∀ nm, nm ≠ bname → annoKeys st' nm = annoKeys st nm) ∧
        hasAnno st' bname id = true ∧ st'.anno_dict = st.anno_dict := by
      intro st2 hupd hoth hmem hdict
      have hkp : KP st2 st' := by
        have h0 := buffer_update_KP st2 bname (some id) false
        rw [hupd] at h0
        exact h0
      refine ⟨?_, ?_, hkp.2.1.trans hdict⟩
      · intro nm hnm
        rw [hkp.1 nm]
        exact hoth nm hnm
      · rw [hasAnno_congr st2 st' bname id (hkp.1 bname)]
        exact hmem
    cases hlk : lookupA b.annos id with
    | some e =>
      cases e with
      | frameRef =>
        simp only [hlk] at h
        refine main _ h (fun nm hnm => rfl) ?_ rfl
        unfold hasAnno
        have hfb2 : ({ st with frame := { st.frame with lnum := l } } :
            NBState).findBuf bname = some b := hb
        simp only [hfb2, hlk, Option.isSome_some]
      | anno a =>
        simp only [hlk] at h
        refine main _ h ?_ ?_ rfl
        · intro nm hnm
          exact annoKeys_modBuf_other st bname nm _ (fun _ _ => rfl) hnm
        · unfold hasAnno
          rw [findBuf_modBuf_self st bname b
            (fun bb => { bb with
              annos := setA bb.annos id (AnnoEntry.anno { a with lnum := l }) })
            (fun _ _ => rfl) hb]
          simp [lookupA_setA_self]
    | none =>
      cases id with
      | frame =>
        simp only [hlk] at h
        refine main _ h ?_ ?_ rfl
        · intro nm hnm
          exact annoKeys_modBuf_other _ bname nm _ (fun _ _ => rfl) hnm
        · unfold hasAnno
          rw [findBuf_modBuf_self ({ st with frame := { st.frame with
              bufName := some bname, lnum := l, is_set := false } }) bname b
            (fun bb => { bb with
              annos := setA bb.annos AnnoId.frame AnnoEntry.frameRef })
            (fun _ _ => rfl) (by exact hb)]
          simp [lookupA_setA_self]
      | bp n =>
        simp only [hlk] at h
        refine main _ h ?_ ?_ rfl
        · intro nm hnm
          refine annoKeys_modBuf_other _ bname nm _ ?_ hnm
          intro x hx
          exact hbn.trans hx.symm
        · unfold hasAnno
          rw [findBuf_modBuf_self ((allocSernum (allocSernum st).2).2) bname b
            (fun _ => { (Buffer.get_typeNum (Buffer.get_typeNum b).2).2 with
              annos := setA (Buffer.get_typeNum (Buffer.get_typeNum b).2).2.annos (AnnoId.bp n) (AnnoEntry.anno { bp := n, lnum := l, disabled := false, sernum := (allocSernum st).1, enabled_sernum := (allocSernum st).1, disabled_sernum := (allocSernum (allocSernum st).2).1, enabled_typeNum := (Buffer.get_typeNum b).1, disabled_typeNum := (Buffer.get_typeNum (Buffer.get_typeNum b).2).1, is_set := false, defined := false }) })
            (fun x hx => hbn.trans hx.symm) (by exact hb)]
          simp [lookupA_setA_self]

/-- C1 amended: the global registry maps each id to at most one buffer,
but per-buffer mappings are not kept unique: re-adding a registered id
under a different path leaves the annotation stored in both buffers.
After `add_anno(id, path2, line)` succeeds from a state where `path1`'s
buffer (path1 distinct from path2) already holds `id`, the id is present
in both buffers' annotation dictionaries while `anno_dict` maps it to
`path2`. -/
theorem c1_amended (fs : String → Bool) (st st' : NBState) (id : AnnoId)
    (p1 p2 : String) (l : Int)
    (h : BufferSet.add_anno fs st id p2 l = Res.ok () st')
    (hmem : hasAnno st p1 id = true) (hne : p1 ≠ p2) :
    hasAnno st' p1 id = true ∧ hasAnno st' p2 id = true ∧
    lookupA st'.anno_dict id = some p2 := by
  unfold BufferSet.add_anno at h
  split at h
  · exact absurd h (by simp)
  · split at h
    · exact absurd h (by simp)
    · cases hg : BufferSet.getitem fs st p2 with
      | err e s1 => simp only [hg] at h; exact absurd h (by simp)
      | ok u s1 =>
        obtain ⟨⟩ := u
        simp only [hg] at h
        obtain ⟨hoth, hbn2, hdict⟩ := buffer_add_anno_keys _ st' p2 id l h
        obtain ⟨hgf, hgd⟩ := getitem_pres fs st s1 p2 hg
        have hb1 : ∃ b, st.findBuf p1 = some b ∧
            (lookupA b.annos id).isSome = true := by
          unfold hasAnno at hmem
          cases hf : st.findBuf p1 with
          | none =>
            simp only [hf] at hmem
            exact absurd hmem (by simp)
          | some b =>
            simp only [hf] at hmem
            exact ⟨b, rfl, hmem⟩
        obtain ⟨b, hfb1, hlk1⟩ := hb1
        have hs1 : ({ s1 with anno_dict := setA s1.anno_dict id p2 } :
            NBState).findBuf p1 = some b := hgf p1 b hfb1
        have hm2 : hasAnno ({ s1 with anno_dict := setA s1.anno_dict id p2 } :
            NBState) p1 id = true := by
          unfold hasAnno
          simp only [hs1]
          exact hlk1
        refine ⟨?_, hbn2, ?_⟩
        · rw [hasAnno_congr _ st' p1 id (hoth p1 hne)]
          exact hm2
        · rw [hdict]
          exact lookupA_setA_self s1.anno_dict id p2

/-- C1 witness: the amended theorem applied to the concrete two-path
scenario. -/
theorem c1_witness :
    BufferSet.add_anno fs0 c1st1 (AnnoId.bp 1) "/b" 1 = Res.ok () c1st2 ∧
    hasAnno c1st1 "/a" (AnnoId.bp 1) = true ∧ "/a" ≠ "/b" ∧
    (hasAnno c1st2 "/a" (AnnoId.bp 1) = true ∧
     hasAnno c1st2 "/b" (AnnoId.bp 1) = true ∧
     lookupA c1st2.anno_dict (AnnoId.bp 1) = some "/b") :=
  ⟨by decide, by decide, by decide,
   c1_amended fs0 c1st1 c1st2 (AnnoId.bp 1) "/a" "/b" 1 (by decide) (by decide)
     (by decide)⟩

theorem frame_remove_anno_bufName (st st' : NBState)
    (h : FrameAnno.remove_anno st = Res.ok () st') :
    st'.frame.bufName = st.frame.bufName := by
  unfold FrameAnno.remove_anno at h
  cases hbn : st.frame.bufName with
  | none => simp only [hbn] at h; exact absurd h (by simp)
  | some nm =>
    simp only [hbn] at h
    split at h <;>
      (simp only [Res.ok.injEq, true_and] at h; rw [← h]; simp [sendCmd, hbn])

theorem annosNodup_modBuf (st : NBState) (bname : String) (f : Buffer → Buffer)
    (hk : ∀ x ∈ st.buffers, (keysA x.annos).Nodup → (keysA (f x).annos).Nodup)
    (han : AnnosNodup st) : AnnosNodup (st.modBuf bname f) := by
  intro x' hx'
  obtain ⟨x, hxm, hxe⟩ := List.mem_map.mp hx'
  rw [← hxe]
  by_cases hxb : (x.name == bname) = true
  · simp only [hxb, if_true]
    exact hk x hxm (han x hxm)
  · simp only [hxb, if_false]
    exact han x hxm

theorem anno_remove_anno_frame (st : NBState) (bname : String) (a : Anno) :
    (Anno.remove_anno st bname a).1.frame = st.frame := by
  unfold Anno.remove_anno
  split <;> (dsimp only; split <;> simp [sendCmd])

theorem buffer_delete_frame_effect (st stb : NBState) (bname : String)
    (han : AnnosNodup st)
    (h : Buffer.delete_anno st bname AnnoId.frame = Res.ok () stb) :
    hasAnno stb bname AnnoId.frame = false ∧
    (∀ q, q ≠ bname → annoKeys stb q = annoKeys st q) ∧
    stb.anno_dict = st.anno_dict ∧
    stb.buffers.map (fun b => b.name) = st.buffers.map (fun b => b.name) ∧
    AnnosNodup stb ∧ stb.frame.bufName = st.frame.bufName := by
  unfold Buffer.delete_anno at h
  cases hfb : st.findBuf bname with
  | none => simp only [hfb] at h; exact absurd h (by simp)
  | some b =>
    simp only [hfb] at h
    have hbmem : b ∈ st.buffers := mem_of_findBuf st bname b hfb
    cases hlk : lookupA b.annos AnnoId.frame with
    | none => simp only [hlk] at h; exact absurd h (by simp)
    | some e =>
      cases e with
      | frameRef =>
        simp only [hlk] at h
        cases hfr : FrameAnno.remove_anno st with
        | err e2 st2 => simp only [hfr] at h; exact absurd h (by simp)
        | ok u st2 =>
          obtain ⟨⟩ := u
          simp only [hfr, Res.ok.injEq, true_and, if_pos] at h
          obtain ⟨hb2, hd2⟩ := frame_remove_anno_skel st st2 hfr
          have hbn2 := frame_remove_anno_bufName st st2 hfr
          subst h
          have hfb2 : st2.findBuf bname = some b := by
            rw [findBuf_congr st2 st hb2]
            exact hfb
          refine ⟨?_, ?_, hd2, ?_, ?_, hbn2⟩
          · unfold hasAnno
            rw [findBuf_modBuf_self st2 bname b
              (fun bb => { bb with annos := removeA bb.annos AnnoId.frame })
              (fun _ _ => rfl) hfb2]
            simp [lookupA_removeA_self b.annos AnnoId.frame (han b hbmem)]
          · intro q hq
            rw [annoKeys_modBuf_other st2 bname q
              (fun bb => { bb with annos := removeA bb.annos AnnoId.frame })
              (fun _ _ => rfl) hq]
            unfold annoKeys
            rw [findBuf_congr st2 st hb2]
          · rw [modBuf_names st2 bname
              (fun bb => { bb with annos := removeA bb.annos AnnoId.frame })
              (fun _ _ => rfl), hb2]
          · refine annosNodup_modBuf st2 bname _ ?_
              (annosNodup_buffers_eq st st2 hb2 han)
            intro x _ hx
            exact nodup_keysA_removeA x.annos AnnoId.frame hx
      | anno a =>
        simp only [hlk] at h
        simp only [Res.ok.injEq, true_and, if_pos] at h
        obtain ⟨hb1, hd1⟩ := anno_remove_anno_skel st bname a
        subst h
        have hfb1 : (Anno.remove_anno st bname a).1.findBuf bname = some b := by
          rw [findBuf_congr _ st hb1]
          exact hfb
        have hfbset : ((Anno.remove_anno st bname a).1.modBuf bname
            (fun bb => { bb with
              annos := setA bb.annos AnnoId.frame (AnnoEntry.anno (Anno.remove_anno st bname a).2) })).findBuf bname =
            some { b with
              annos := setA b.annos AnnoId.frame (AnnoEntry.anno (Anno.remove_anno st bname a).2) } := by
          rw [findBuf_modBuf_self _ bname b
            (fun bb => { bb with
              annos := setA bb.annos AnnoId.frame (AnnoEntry.anno (Anno.remove_anno st bname a).2) })
            (fun _ _ => rfl) hfb1]
        refine ⟨?_, ?_, hd1, ?_, ?_,
          by rw [show ∀ y : NBState, ∀ g, (NBState.modBuf y bname g).frame = y.frame from fun y g => rfl]
             rw [show ∀ y : NBState, ∀ g, (NBState.modBuf y bname g).frame = y.frame from fun y g => rfl]
             rw [anno_remove_anno_frame st bname a]⟩
        · unfold hasAnno
          rw [findBuf_modBuf_self _ bname
            ({ b with
              annos := setA b.annos AnnoId.frame (AnnoEntry.anno (Anno.remove_anno st bname a).2) })
            (fun bb => { bb with annos := removeA bb.annos AnnoId.frame })
            (fun _ _ => rfl) hfbset]
          have hknd : (keysA (setA b.annos AnnoId.frame
              (AnnoEntry.anno (Anno.remove_anno st bname a).2))).Nodup :=
            keysA_setA_nodup b.annos AnnoId.frame _ (han b hbmem)
          simp [lookupA_removeA_self _ AnnoId.frame hknd]
        · intro q hq
          rw [annoKeys_modBuf_other _ bname q
              (fun bb => { bb with annos := removeA bb.annos AnnoId.frame })
              (fun _ _ => rfl) hq,
            annoKeys_modBuf_other _ bname q
              (fun bb => { bb with
                annos := setA bb.annos AnnoId.frame (AnnoEntry.anno (Anno.remove_anno st bname a).2) })
              (fun _ _ => rfl) hq]
          unfold annoKeys
          rw [findBuf_congr _ st hb1]
        · rw [modBuf_names _ bname
              (fun bb => { bb with annos := removeA bb.annos AnnoId.frame })
              (fun _ _ => rfl),
            modBuf_names _ bname
              (fun bb => { bb with
                annos := setA bb.annos AnnoId.frame (AnnoEntry.anno (Anno.remove_anno st bname a).2) })
              (fun _ _ => rfl), hb1]
        · refine annosNodup_modBuf _ bname _ ?_ ?_
          · intro x _ hx
            exact nodup_keysA_removeA x.annos AnnoId.frame hx
          · refine annosNodup_modBuf _ bname _ ?_
              (annosNodup_buffers_eq st _ hb1 han)
            intro x _ hx
            exact keysA_setA_nodup x.annos AnnoId.frame _ hx

theorem delete_frame_clears (st st1 : NBState)
    (hnn : NamesNodup st) (hdn : DictNodup st) (han : AnnosNodup st)
    (hfc : FrameCoherent st)
    (h : BufferSet.delete_anno st AnnoId.frame = Res.ok () st1) :
    lookupA st1.anno_dict AnnoId.frame = none ∧
    (∀ q, hasAnno st1 q AnnoId.frame = false) ∧
    NamesNodup st1 ∧ DictNodup st1 ∧ AnnosNodup st1 := by
  unfold BufferSet.delete_anno at h
  cases hlk : lookupA st.anno_dict AnnoId.frame with
  | none => simp only [hlk] at h; exact absurd h (by simp)
  | some nm0 =>
    simp only [hlk] at h
    cases hbd : Buffer.delete_anno st nm0 AnnoId.frame with
    | err e stb => simp only [hbd] at h; exact absurd h (by simp)
    | ok u stb =>
      obtain ⟨⟩ := u
      simp only [hbd, Res.ok.injEq, true_and] at h
      obtain ⟨hna, hoth, hdict, hnames, hanb, hbn⟩ :=
        buffer_delete_frame_effect st stb nm0 han hbd
      subst h
      refine ⟨?_, ?_, ?_, ?_, hanb⟩
      · show lookupA (removeA stb.anno_dict AnnoId.frame) AnnoId.frame = none
        apply lookupA_removeA_self
        rw [hdict]
        exact hdn
      · intro q
        have hq1 : hasAnno { stb with
            anno_dict := removeA stb.anno_dict AnnoId.frame } q AnnoId.frame =
            hasAnno stb q AnnoId.frame := rfl
        rw [hq1]
        by_cases hq : q = nm0
        · rw [hq]
          exact hna
        · rw [hasAnno_congr st stb q AnnoId.frame (hoth q hq)]
          unfold hasAnno
          cases hfq : st.findBuf q with
          | none => rfl
          | some bq =>
            cases hlq : (lookupA bq.annos AnnoId.frame).isSome with
            | false => exact hlq
            | true =>
              exfalso
              have := hfc bq (mem_of_findBuf st q bq hfq) hlq
              rw [hlk] at this
              have hbqn : bq.name = q := findBuf_name st q bq hfq
              rw [hbqn] at this
              exact hq (by injection this with hh; exact hh.symm)
      · show NamesNodup { stb with anno_dict := removeA stb.anno_dict AnnoId.frame }
        unfold NamesNodup at hnn ⊢
        show (stb.buffers.map (fun b => b.name)).Nodup
        rw [hnames]
        exact hnn
      · show DictNodup { stb with anno_dict := removeA stb.anno_dict AnnoId.frame }
        unfold DictNodup
        apply nodup_keysA_removeA
        rw [hdict]
        exact hdn

theorem find_append_none_pos (l : List Buffer) (x : Buffer) (p : Buffer → Bool)
    (hl : l.find? p = none) (hx : p x = true) : (l ++ [x]).find? p = some x := by
  induction l with
  | nil =>
    show List.find? p [x] = some x
    exact List.find?_cons_of_pos [] hx
  | cons y t ih =>
    by_cases hy : p y = true
    · rw [List.find?_cons_of_pos t hy] at hl
      exact absurd hl (by simp)
    · rw [List.find?_cons_of_neg t hy] at hl
      rw [List.cons_append, List.find?_cons_of_neg _ hy]
      exact ih hl

theorem find_append_none_neg (l : List Buffer) (x : Buffer) (p : Buffer → Bool)
    (hl : l.find? p = none) (hx : ¬ p x = true) : (l ++ [x]).find? p = none := by
  induction l with
  | nil =>
    show List.find? p [x] = none
    rw [List.find?_cons_of_neg [] hx]
    rfl
  | cons y t ih =>
    by_cases hy : p y = true
    · rw [List.find?_cons_of_pos t hy] at hl
      exact absurd hl (by simp)
    · rw [List.find?_cons_of_neg t hy] at hl
      rw [List.cons_append, List.find?_cons_of_neg _ hy]
      exact ih hl

theorem define_frameanno_frame (st : NBState) (nm : String) :
    (Buffer.define_frameanno st nm).frame = st.frame := by
  unfold Buffer.define_frameanno
  cases hb : st.findBuf nm with
  | none => rfl
  | some b =>
    dsimp only
    split <;> rfl

theorem frame_update_post (st4 st' : NBState) (nm : String)
    (hbn : st4.frame.bufName = some nm) (hset : st4.frame.is_set = false)
    (h : FrameAnno.update st4 = Res.ok () st') :
    st'.frame.bufName = some nm ∧ st'.frame.is_set = true ∧ KP st4 st' := by
  unfold FrameAnno.update at h
  simp only [hset, hbn, Bool.false_eq_true, if_false] at h
  simp only [Res.ok.injEq, true_and] at h
  subst h
  refine ⟨?_, rfl, ?_⟩
  · show (Buffer.define_frameanno st4 nm).frame.bufName = some nm
    rw [define_frameanno_frame st4 nm]
    exact hbn
  · exact KP_trans (define_frameanno_KP st4 nm) (KP_frame_chain _ _ _ _ _ _)

theorem buffer_update_frame_entry (st3 st' : NBState) (bname : String)
    (b3 : Buffer) (hb : st3.findBuf bname = some b3)
    (hlk : lookupA b3.annos AnnoId.frame = some AnnoEntry.frameRef)
    (hbn : st3.frame.bufName = some bname) (hset : st3.frame.is_set = false)
    (h : Buffer.update st3 bname (some AnnoId.frame) false = Res.ok () st') :
    st'.frame.bufName = some bname ∧ st'.frame.is_set = true ∧ KP st3 st' := by
  unfold Buffer.update at h
  simp only [hb] at h
  by_cases hr : (!b3.registered) = true
  · rw [if_pos hr] at h
    have hfb4 : ((sendCmd (sendCmd (sendCmd st3 bname (Cmd.editFile b3.name))
        bname (Cmd.putBufferNumber b3.name)) bname Cmd.stopDocListen).modBuf
        bname (fun bb => { bb with registered := true })).findBuf bname =
        some { b3 with registered := true } := by
      rw [findBuf_modBuf_self _ bname b3
        (fun bb => { bb with registered := true }) (fun _ _ => rfl)
        (by exact hb)]
    unfold updateEntry at h
    simp only [hfb4] at h
    simp only [hlk] at h
    obtain ⟨h1, h2, h3⟩ := frame_update_post _ st' bname (by exact hbn)
      (by exact hset) h
    refine ⟨h1, h2, KP_trans ?_ h3⟩
    exact KP_trans (KP_of_buffers_eq rfl rfl)
      (KP_modBuf _ bname (fun bb => { bb with registered := true })
        (fun _ _ => rfl) (fun _ _ => rfl) (fun han x hxm => han x hxm))
  · rw [if_neg hr] at h
    unfold updateEntry at h
    simp only [hb] at h
    simp only [hlk] at h
    exact (frame_update_post st3 st' bname hbn hset h).imp id
      (fun q => q)

theorem getitem_effects (fs : String → Bool) (st s1 : NBState) (p : String)
    (h : BufferSet.getitem fs st p = Res.ok () s1) :
    s1.anno_dict = st.anno_dict ∧ s1.frame = st.frame ∧
    (∃ bp, s1.findBuf p = some bp ∧
      (lookupA bp.annos AnnoId.frame).isSome = hasAnno st p AnnoId.frame) ∧
    (∀ q, hasAnno s1 q AnnoId.frame = hasAnno st q AnnoId.frame) ∧
    (NamesNodup st → NamesNodup s1) ∧ (AnnosNodup st → AnnosNodup s1) := by
  unfold BufferSet.getitem at h
  split at h
  · exact absurd h (by simp)
  · cases hf : st.findBuf p with
    | some b =>
      rw [hf] at h
      simp only [Res.ok.injEq, true_and] at h
      subst h
      refine ⟨rfl, rfl, ⟨b, hf, ?_⟩, fun q => rfl, id, id⟩
      unfold hasAnno
      rw [hf]
    | none =>
      rw [hf] at h
      simp only [Res.ok.injEq, true_and] at h
      subst h
      have hnone : st.buffers.find? (fun x => x.name == p) = none := hf
      have hfp : ({ st with buffers :=
          st.buffers ++ [newBuffer p (st.buffers.length + 1)] } :
          NBState).findBuf p = some (newBuffer p (st.buffers.length + 1)) := by
        unfold NBState.findBuf
        exact find_append_none_pos st.buffers _ _ hnone (by simp [newBuffer])
      refine ⟨rfl, rfl, ⟨newBuffer p (st.buffers.length + 1), hfp, ?_⟩,
        ?_, ?_, ?_⟩
      · unfold hasAnno
        rw [hf]
        rfl
      · intro q
        by_cases hq : q = p
        · subst hq
          unfold hasAnno
          rw [hfp, hf]
          rfl
        · unfold hasAnno
          cases hfq : st.findBuf q with
          | some bq =>
            rw [findBuf_append_of_some st _ q bq hfq]
          | none =>
            have : ({ st with buffers :=
                st.buffers ++ [newBuffer p (st.buffers.length + 1)] } :
                NBState).findBuf q = none := by
              unfold NBState.findBuf
              refine find_append_none_neg st.buffers _ _ hfq ?_
              simp [newBuffer, Ne.symm hq]
            rw [this]
      · intro hnn
        unfold NamesNodup at hnn ⊢
        show ((st.buffers ++ [newBuffer p (st.buffers.length + 1)]).map
          (fun b => b.name)).Nodup
        rw [List.map_append]
        have hpn : ¬ p ∈ st.buffers.map (fun b => b.name) := by
          intro hm
          obtain ⟨x, hxm, hxe⟩ := List.mem_map.mp hm
          have := List.find?_eq_none.mp hnone x hxm
          simp [hxe] at this
        simp [List.nodup_append, hnn, newBuffer]
        intro x hxm hxe
        exact hpn (hxe ▸ List.mem_map_of_mem (fun b => b.name) hxm)
      · intro han x hx
        rcases List.mem_append.mp hx with hx | hx
        · exact han x hx
        · have : x = newBuffer p (st.buffers.length + 1) := by simpa using hx
          rw [this]
          simp [newBuffer, keysA]

theorem add_frame_fresh (fs : String → Bool) (st st' : NBState) (p : String)
    (l : Int) (hnofr : ∀ q, hasAnno st q AnnoId.frame = false)
    (hnn : NamesNodup st) (hdn : DictNodup st) (han : AnnosNodup st)
    (h : BufferSet.add_anno fs st AnnoId.frame p l = Res.ok () st') :
    lookupA st'.anno_dict AnnoId.frame = some p ∧
    hasAnno st' p AnnoId.frame = true ∧
    (∀ q, q ≠ p → hasAnno st' q AnnoId.frame = false) ∧
    st'.frame.bufName = some p ∧ st'.frame.is_set = true ∧
    NamesNodup st' ∧ DictNodup st' ∧ AnnosNodup st' := by
  unfold BufferSet.add_anno at h
  split at h
  · exact absurd h (by simp)
  split at h
  · exact absurd h (by simp)
  cases hg : BufferSet.getitem fs st p with
  | err e s1 => simp only [hg] at h; exact absurd h (by simp)
  | ok u s1 =>
    obtain ⟨⟩ := u
    simp only [hg] at h
    obtain ⟨hgd, hgfr, ⟨bp, hbp, hbpl⟩, hq, hgn, hga⟩ :=
      getitem_effects fs st s1 p hg
    have hlkn : lookupA bp.annos AnnoId.frame = none := by
      rw [hnofr p] at hbpl
      cases hlc : lookupA bp.annos AnnoId.frame with
      | none => rfl
      | some v => rw [hlc] at hbpl; simp at hbpl
    unfold Buffer.add_anno at h
    have hfb2 : ({ s1 with anno_dict := setA s1.anno_dict AnnoId.frame p } :
        NBState).findBuf p = some bp := hbp
    simp only [hfb2] at h
    simp only [hlkn] at h
    have hfb3 : (({ s1 with anno_dict := setA s1.anno_dict AnnoId.frame p, frame := { bufName := some p, lnum := l, is_set := false, sernum := s1.frame.sernum } } : NBState).modBuf p
        (fun bb => { bb with
          annos := setA bb.annos AnnoId.frame AnnoEntry.frameRef })).findBuf p =
        some { bp with
          annos := setA bp.annos AnnoId.frame AnnoEntry.frameRef } :=
      findBuf_modBuf_self _ p bp _ (fun _ _ => rfl) (by exact hbp)
    obtain ⟨h1, h2, hkp⟩ := buffer_update_frame_entry _ st' p _ hfb3
      (lookupA_setA_self bp.annos AnnoId.frame AnnoEntry.frameRef)
      (by exact rfl) (by exact rfl) (by exact h)
    refine ⟨?_, ?_, ?_, h1, h2, ?_, ?_, ?_⟩
    · rw [hkp.2.1]
      exact lookupA_setA_self s1.anno_dict AnnoId.frame p
    · rw [hasAnno_congr _ st' p AnnoId.frame (hkp.1 p)]
      unfold hasAnno
      rw [hfb3]
      simp [lookupA_setA_self]
    · intro q hq2
      rw [hasAnno_congr _ st' q AnnoId.frame (hkp.1 q)]
      have hoth := annoKeys_modBuf_other ({ s1 with anno_dict := setA s1.anno_dict AnnoId.frame p, frame := { bufName := some p, lnum := l, is_set := false, sernum := s1.frame.sernum } } : NBState) p q
        (fun bb => { bb with
          annos := setA bb.annos AnnoId.frame AnnoEntry.frameRef })
        (fun _ _ => rfl) hq2
      rw [hasAnno_congr _ _ q AnnoId.frame hoth]
      rw [show hasAnno ({ s1 with anno_dict := setA s1.anno_dict AnnoId.frame p, frame := { bufName := some p, lnum := l, is_set := false, sernum := s1.frame.sernum } } : NBState) q AnnoId.frame = hasAnno s1 q AnnoId.frame from rfl]
      rw [hq q]
      exact hnofr q
    · unfold NamesNodup
      rw [hkp.2.2.1]
      rw [modBuf_names _ p
        (fun bb => { bb with
          annos := setA bb.annos AnnoId.frame AnnoEntry.frameRef })
        (fun _ _ => rfl)]
      exact hgn hnn
    · unfold DictNodup
      rw [hkp.2.1]
      refine keysA_setA_nodup s1.anno_dict AnnoId.frame p ?_
      rw [hgd]
      exact hdn
    · refine hkp.2.2.2 ?_
      refine annosNodup_modBuf _ p _ ?_ ?_
      · intro x _ hx
        exact keysA_setA_nodup x.annos AnnoId.frame AnnoEntry.frameRef hx
      · exact hga han

theorem frameCoherent_of_posts (st' : NBState) (p : String)
    (hnn : NamesNodup st')
    (hd : lookupA st'.anno_dict AnnoId.frame = some p)
    (hother : ∀ q, q ≠ p → hasAnno st' q AnnoId.frame = false) :
    FrameCoherent st' := by
  intro b hb hfr
  have hfind := findBuf_of_mem_nodup st' b hnn hb
  by_cases hbp : b.name = p
  · rw [hbp]
    exact hd
  · exfalso
    have hfalse := hother b.name hbp
    unfold hasAnno at hfalse
    simp only [hfind] at hfalse
    rw [hfr] at hfalse
    exact absurd hfalse (by simp)

theorem hasAnno_false_of_no_reg (st : NBState) (hfc : FrameCoherent st)
    (hin : (lookupA st.anno_dict AnnoId.frame).isSome = false) :
    ∀ q, hasAnno st q AnnoId.frame = false := by
  intro q
  unfold hasAnno
  cases hfq : st.findBuf q with
  | none => rfl
  | some bq =>
    cases hlq : (lookupA bq.annos AnnoId.frame).isSome with
    | false => exact hlq
    | true =>
      exfalso
      have := hfc bq (mem_of_findBuf st q bq hfq) hlq
      rw [this] at hin
      simp at hin

theorem showFrame_some_post (fs : String → Bool) (st st' : NBState) (p : String)
    (l : Int) (hwf : WF st) (hp : p ≠ "")
    (h : BufferSet.show_frame fs st (some p) l = Res.ok () st') :
    lookupA st'.anno_dict AnnoId.frame = some p ∧
    hasAnno st' p AnnoId.frame = true ∧
    (∀ q, q ≠ p → hasAnno st' q AnnoId.frame = false) ∧
    st'.frame.bufName = some p ∧ st'.frame.is_set = true ∧ WF st' := by
  obtain ⟨hnn, hdn, han, hfc⟩ := hwf
  unfold BufferSet.show_frame at h
  split at h
  · exact absurd h (by simp)
  cases hin : (lookupA st.anno_dict AnnoId.frame).isSome with
  | false =>
    simp only [hin, Bool.false_eq_true, if_false] at h
    rw [if_neg hp] at h
    have hnofr := hasAnno_false_of_no_reg st hfc hin
    obtain ⟨a1, a2, a3, a4, a5, a6, a7, a8⟩ :=
      add_frame_fresh fs st st' p l hnofr hnn hdn han h
    exact ⟨a1, a2, a3, a4, a5, a6, a7, a8,
      frameCoherent_of_posts st' p a6 a1 a3⟩
  | true =>
    simp only [hin, if_true] at h
    cases hdel : BufferSet.delete_anno st AnnoId.frame with
    | err e st1 => simp only [hdel] at h; exact absurd h (by simp)
    | ok u st1 =>
      obtain ⟨⟩ := u
      simp only [hdel] at h
      rw [if_neg hp] at h
      obtain ⟨d1, d2, d3, d4, d5⟩ := delete_frame_clears st st1 hnn hdn han hfc hdel
      obtain ⟨a1, a2, a3, a4, a5, a6, a7, a8⟩ :=
        add_frame_fresh fs st1 st' p l d2 d3 d4 d5 h
      exact ⟨a1, a2, a3, a4, a5, a6, a7, a8,
        frameCoherent_of_posts st' p a6 a1 a3⟩

theorem showFrame_none_post (fs : String → Bool) (st st' : NBState) (l : Int)
    (hdn : DictNodup st)
    (h : BufferSet.show_frame fs st none l = Res.ok () st') :
    lookupA st'.anno_dict AnnoId.frame = none := by
  unfold BufferSet.show_frame at h
  split at h
  · exact absurd h (by simp)
  cases hin : (lookupA st.anno_dict AnnoId.frame).isSome with
  | false =>
    simp only [hin, Bool.false_eq_true, if_false] at h
    simp only [Res.ok.injEq, true_and] at h
    subst h
    cases hlc : lookupA st.anno_dict AnnoId.frame with
    | none => rfl
    | some v => rw [hlc] at hin; simp at hin
  | true =>
    simp only [hin, if_true] at h
    cases hdel : BufferSet.delete_anno st AnnoId.frame with
    | err e st1 => simp only [hdel] at h; exact absurd h (by simp)
    | ok u st1 =>
      obtain ⟨⟩ := u
      simp only [hdel, Res.ok.injEq, true_and] at h
      subst h
      obtain ⟨hd, _, _⟩ := bufferset_delete_anno_pres st st1 AnnoId.frame hdel
      rw [hd]
      exact lookupA_removeA_self st.anno_dict AnnoId.frame hdn

/-- C4: at most one frame annotation is registered at any time (the
registry is a map); `show_frame` deletes the currently registered frame
annotation before re-creating it, so calling it twice on two distinct
well-formed paths leaves exactly one frame entry, hosted and placed at
the second path with the first path's entry removed; and `show_frame`
with no path leaves the registry without a frame entry. -/
theorem c4_frame (fs : String → Bool) (st st1 st2 : NBState) (p1 p2 : String)
    (l1 l2 : Int) (hwf : WF st) (hp1 : p1 ≠ "") (hp2 : p2 ≠ "") (hne : p1 ≠ p2)
    (h1 : BufferSet.show_frame fs st (some p1) l1 = Res.ok () st1)
    (h2 : BufferSet.show_frame fs st1 (some p2) l2 = Res.ok () st2) :
    lookupA st2.anno_dict AnnoId.frame = some p2 ∧
    hasAnno st2 p2 AnnoId.frame = true ∧
    hasAnno st2 p1 AnnoId.frame = false ∧
    st2.frame.bufName = some p2 ∧ st2.frame.is_set = true ∧
    ∀ st3 l3, BufferSet.show_frame fs st2 none l3 = Res.ok () st3 →
      lookupA st3.anno_dict AnnoId.frame = none := by
  obtain ⟨b1, b2, b3, b4, b5, bwf⟩ :=
    showFrame_some_post fs st st1 p1 l1 hwf hp1 h1
  obtain ⟨c1, c2, c3, c4, c5, cwf⟩ :=
    showFrame_some_post fs st1 st2 p2 l2 bwf hp2 h2
  exact ⟨c1, c2, c3 p1 hne, c4, c5,
    fun st3 l3 h3 => showFrame_none_post fs st2 st3 l3 cwf.2.1 h3⟩

theorem c4_witness :
    lookupA c4st2.anno_dict AnnoId.frame = some "/b" ∧
    hasAnno c4st2 "/b" AnnoId.frame = true ∧
    hasAnno c4st2 "/a" AnnoId.frame = false ∧
    c4st2.frame.bufName = some "/b" ∧ c4st2.frame.is_set = true ∧
    ∀ st3 l3, BufferSet.show_frame fs0 c4st2 none l3 = Res.ok () st3 →
      lookupA st3.anno_dict AnnoId.frame = none :=
  c4_frame fs0 st0 c4st1 c4st2 "/a" "/b" 3 7
    ⟨by unfold NamesNodup; decide, by unfold DictNodup; decide,
     by unfold AnnosNodup; decide,
     by intro b hb hfr; exact absurd hb (List.not_mem_nil b)⟩
    (by decide) (by decide) (by decide) (by decide) (by decide)

theorem regOf_true_iff (st : NBState) (nm : String) :
    regOf st nm = true ↔ ∃ b, st.findBuf nm = some b ∧ b.registered = true := by
  unfold regOf
  cases hx : st.findBuf nm with
  | none => simp
  | some b => simp

theorem regOf_false_iff (st : NBState) (nm : String) :
    regOf st nm = false ↔
      (st.findBuf nm = none ∨ ∃ b, st.findBuf nm = some b ∧ b.registered = false) := by
  unfold regOf
  cases hx : st.findBuf nm with
  | none => simp
  | some b => simp

theorem bufTrace_of_append (st st' : NBState) (tail : List (String × Cmd))
    (h : st'.trace = st.trace ++ tail) (nm : String) :
    bufTrace st' nm =
      bufTrace st nm ++ (tail.filter (fun e => e.1 == nm)).map Prod.snd := by
  unfold bufTrace
  rw [h, List.filter_append, List.map_append]

theorem MExt_refl (st : NBState) : MExt st st :=
  ⟨fun _ => rfl, [], (List.append_nil st.trace).symm,
    fun e he => absurd he (List.not_mem_nil e)⟩

theorem MExt_trans {st st1 st2 : NBState} (h1 : MExt st st1) (h2 : MExt st1 st2) :
    MExt st st2 := by
  obtain ⟨r1, t1, ht1, he1⟩ := h1
  obtain ⟨r2, t2, ht2, he2⟩ := h2
  refine ⟨fun nm => (r2 nm).trans (r1 nm), t1 ++ t2, ?_, ?_⟩
  · rw [ht2, ht1, List.append_assoc]
  · intro e he
    rcases List.mem_append.mp he with h | h
    · exact he1 e h
    · exact ⟨(he2 e h).1, by rw [← r1 e.1]; exact (he2 e h).2⟩

theorem MExt_sendCmd (st : NBState) (nm : String) (c : Cmd)
    (hm : isMarkerCmd c = true) (hr : regOf st nm = true) :
    MExt st (sendCmd st nm c) :=
  ⟨fun _ => rfl, [(nm, c)], rfl, fun e he => by
    rcases List.mem_singleton.mp he with rfl
    exact ⟨hm, hr⟩⟩

theorem MExt_buffers_eq {st st' : NBState} (hb : st'.buffers = st.buffers)
    (ht : st'.trace = st.trace) : MExt st st' := by
  refine ⟨fun nm => ?_, [], by rw [ht, List.append_nil],
    fun e he => absurd he (List.not_mem_nil e)⟩
  unfold regOf
  rw [findBuf_congr st' st hb nm]

theorem regOf_of_proj (st st' : NBState) (nm : String)
    (h : (st'.findBuf nm).map (fun b => b.registered) =
      (st.findBuf nm).map (fun b => b.registered)) :
    regOf st' nm = regOf st nm := by
  unfold regOf
  cases hx : st.findBuf nm with
  | none =>
    rw [hx] at h
    simp only [Option.map_none'] at h
    rw [Option.map_eq_none'] at h
    rw [h]
  | some x =>
    rw [hx] at h
    simp only [Option.map_some'] at h
    rw [Option.map_eq_some'] at h
    obtain ⟨y, hy, hyr⟩ := h
    rw [hy]
    exact hyr

theorem MExt_modBuf (st : NBState) (bname : String) (f : Buffer → Buffer)
    (hf : ∀ x, x.name = bname → (f x).name = x.name)
    (hr : ∀ x, st.findBuf bname = some x → (f x).registered = x.registered) :
    MExt st (st.modBuf bname f) := by
  refine ⟨fun nm => regOf_of_proj st (st.modBuf bname f) nm
      (modBuf_proj_pres (fun b => b.registered) st bname f hf hr nm),
    [], by rw [List.append_nil]; rfl,
    fun e he => absurd he (List.not_mem_nil e)⟩

theorem TS_of_MExt {st st' : NBState} (hts : TS st) (hm : MExt st st') :
    TS st' := by
  obtain ⟨hreg, tail, htr, htail⟩ := hm
  intro nm
  constructor
  · intro hcase
    have hrf : regOf st nm = false := by
      rw [← hreg nm]
      exact (regOf_false_iff st' nm).mpr hcase
    have hempty : bufTrace st nm = [] :=
      (hts nm).1 ((regOf_false_iff st nm).mp hrf)
    rw [bufTrace_of_append st st' tail htr nm, hempty]
    have hfil : tail.filter (fun e => e.1 == nm) = [] := by
      rw [List.filter_eq_nil_iff]
      intro e he
      have h2 := (htail e he).2
      simp only [beq_iff_eq]
      intro henm
      rw [henm] at h2
      rw [h2] at hrf
      exact absurd hrf (by simp)
    rw [hfil]
    rfl
  · intro b hb hbr
    have hst : regOf st nm = true := by
      rw [← hreg nm]
      exact (regOf_true_iff st' nm).mpr ⟨b, hb, hbr⟩
    obtain ⟨b0, hb0, hbr0⟩ := (regOf_true_iff st nm).mp hst
    obtain ⟨t, ht, hmk⟩ := (hts nm).2 b0 hb0 hbr0
    refine ⟨t ++ (tail.filter (fun e => e.1 == nm)).map Prod.snd, ?_, ?_⟩
    · rw [bufTrace_of_append st st' tail htr nm, ht, List.append_assoc]
    · intro c hc
      rcases List.mem_append.mp hc with h1 | h2
      · exact hmk c h1
      · obtain ⟨e, he, hee⟩ := List.mem_map.mp h2
        rw [← hee]
        exact (htail e (List.mem_of_mem_filter he)).1

theorem FHR_of_MExt {st st' : NBState} (hm : MExt st st')
    (hf : st'.frame.bufName = st.frame.bufName) (hh : FrameHostReg st) :
    FrameHostReg st' := by
  intro h0 hbn
  rw [hm.1 h0]
  exact hh h0 (by rw [← hf]; exact hbn)

theorem marker_defineAnnoType (k : Nat) (lb c : String) :
    isMarkerCmd (Cmd.defineAnnoType k lb c) = true := rfl

theorem marker_addAnno (s t : Nat) (l : Int) :
    isMarkerCmd (Cmd.addAnno s t l) = true := rfl

theorem marker_setDot (l : Int) : isMarkerCmd (Cmd.setDot l) = true := rfl

theorem remove_anno_eq (st : NBState) (bname : String) (a : Anno) :
    Anno.remove_anno st bname a =
      (if regOf st bname && a.is_set then
         sendCmd st bname (Cmd.removeAnno a.sernum) else st,
       { a with is_set := false }) := by
  unfold Anno.remove_anno regOf
  rfl

theorem remove_anno_MExt (st : NBState) (bname : String) (a : Anno) :
    MExt st (Anno.remove_anno st bname a).1 := by
  rw [remove_anno_eq]
  by_cases hc : (regOf st bname && a.is_set) = true
  · rw [if_pos hc]
    refine MExt_sendCmd st bname (Cmd.removeAnno a.sernum) rfl ?_
    rw [Bool.and_eq_true] at hc
    exact hc.1
  · rw [if_neg hc]
    exact MExt_refl st

theorem define_bpanno_MExt (st : NBState) (bname : String) (a : Anno)
    (hr : regOf st bname = true) : MExt st (Anno.define_bpanno st bname a).1 := by
  unfold Anno.define_bpanno
  split
  · exact MExt_refl st
  · dsimp only
    exact MExt_trans
      (MExt_sendCmd st bname _ (marker_defineAnnoType _ _ _) hr)
      (MExt_sendCmd _ bname _ (marker_defineAnnoType _ _ _) hr)

theorem define_bpanno_frame (st : NBState) (bname : String) (a : Anno) :
    (Anno.define_bpanno st bname a).1.frame = st.frame := by
  unfold Anno.define_bpanno
  split <;> rfl

theorem MExt_place_chain (s : NBState) (bname : String) (c1 c2 : Cmd) (L : Int)
    (hr : regOf s bname = true) (h1 : isMarkerCmd c1 = true)
    (h2 : isMarkerCmd c2 = true) :
    MExt s (sendCmd (({ sendCmd s bname c1 with lastBuf := some bname }).modBuf
      bname (fun b => { b with lnum := some L, col := some 0 })) bname c2) := by
  refine MExt_trans (MExt_sendCmd s bname c1 h1 hr) ?_
  refine MExt_trans (@MExt_buffers_eq (sendCmd s bname c1)
    { sendCmd s bname c1 with lastBuf := some bname } rfl rfl) ?_
  refine MExt_trans (MExt_modBuf _ bname
    (fun b => { b with lnum := some L, col := some 0 })
    (fun _ _ => rfl) (fun _ _ => rfl)) ?_
  refine MExt_sendCmd _ bname c2 h2 ?_
  rw [(MExt_modBuf _ bname (fun b => { b with lnum := some L, col := some 0 })
    (fun _ _ => rfl) (fun _ _ => rfl)).1 bname]
  exact hr

theorem MExt_frame_chain (s : NBState) (nm : String) (c1 c2 : Cmd) (L : Int)
    (fr : FrameAnno) (hr : regOf s nm = true) (h1 : isMarkerCmd c1 = true)
    (h2 : isMarkerCmd c2 = true) :
    MExt s { sendCmd (({ sendCmd s nm c1 with lastBuf := some nm }).modBuf nm
      (fun b => { b with lnum := some L, col := some 0 })) nm c2 with
        frame := fr } := by
  refine MExt_trans (MExt_place_chain s nm c1 c2 L hr h1 h2) ?_
  exact MExt_buffers_eq rfl rfl

theorem anno_update_MExt (st : NBState) (bname : String) (a : Anno) (d : Bool)
    (hr : regOf st bname = true) : MExt st (Anno.update st bname a d).1 := by
  unfold Anno.update
  dsimp only
  repeat' split
  all_goals dsimp only
  all_goals first
    | exact MExt_refl st
    | exact remove_anno_MExt st bname a
    | exact MExt_trans (define_bpanno_MExt st bname a hr)
        (MExt_place_chain _ bname _ _ _
          (by rw [(define_bpanno_MExt st bname a hr).1 bname]; exact hr)
          (marker_addAnno _ _ _) (marker_setDot _))
    | exact MExt_trans (remove_anno_MExt st bname a)
        (MExt_trans
          (define_bpanno_MExt _ bname _
            (by rw [(remove_anno_MExt st bname a).1 bname]; exact hr))
          (MExt_place_chain _ bname _ _ _
            (by rw [(define_bpanno_MExt _ bname _
                (by rw [(remove_anno_MExt st bname a).1 bname]; exact hr)).1 bname,
                (remove_anno_MExt st bname a).1 bname]; exact hr)
            (marker_addAnno _ _ _) (marker_setDot _)))

theorem anno_update_frame (st : NBState) (bname : String) (a : Anno) (d : Bool) :
    (Anno.update st bname a d).1.frame = st.frame := by
  unfold Anno.update
  dsimp only
  repeat' split
  all_goals dsimp only
  all_goals first
    | rfl
    | exact anno_remove_anno_frame st bname a
    | exact define_bpanno_frame st bname a
    | exact (define_bpanno_frame _ bname _).trans (anno_remove_anno_frame st bname a)

theorem define_frameanno_MExt (st : NBState) (nm : String)
    (hr : regOf st nm = true) : MExt st (Buffer.define_frameanno st nm) := by
  unfold Buffer.define_frameanno
  cases hb : st.findBuf nm with
  | none => exact MExt_refl st
  | some b =>
    dsimp only
    split
    · have hmod : MExt st (st.modBuf nm (fun _ =>
          { (Buffer.get_typeNum b).2 with
              frame_typeNum := (Buffer.get_typeNum b).1 })) := by
        refine MExt_modBuf st nm _ ?_ ?_
        · intro x hx
          exact (findBuf_name st nm b hb).trans hx.symm
        · intro x hx
          rw [hb] at hx
          cases hx
          rfl
      refine MExt_trans hmod ?_
      refine MExt_sendCmd _ nm _ (marker_defineAnnoType _ _ _) ?_
      rw [hmod.1 nm]
      exact hr
    · exact MExt_refl st

theorem frame_update_ME (st st' : NBState) (hhr : FrameHostReg st)
    (h : FrameAnno.update st = Res.ok () st') :
    MExt st st' ∧ st'.frame.bufName = st.frame.bufName := by
  unfold FrameAnno.update at h
  dsimp only at h
  split at h
  · simp only [Res.ok.injEq, true_and] at h
    subst h
    exact ⟨MExt_refl st, rfl⟩
  · cases hbn : st.frame.bufName with
    | none => simp only [hbn] at h; exact absurd h (by simp)
    | some nm =>
      simp only [hbn] at h
      simp only [Res.ok.injEq, true_and] at h
      subst h
      have hr : regOf st nm = true := hhr nm hbn
      constructor
      · refine MExt_trans (define_frameanno_MExt st nm hr) ?_
        refine MExt_frame_chain _ nm _ _ _ _ ?_ (marker_addAnno _ _ _)
          (marker_setDot _)
        rw [(define_frameanno_MExt st nm hr).1 nm]
        exact hr
      · exact (congrArg FrameAnno.bufName (define_frameanno_frame st nm)).trans hbn

theorem frame_remove_anno_ME (st st' : NBState)
    (h : FrameAnno.remove_anno st = Res.ok () st') :
    MExt st st' ∧ st'.frame.bufName = st.frame.bufName := by
  unfold FrameAnno.remove_anno at h
  dsimp only at h
  cases hbn : st.frame.bufName with
  | none => simp only [hbn] at h; exact absurd h (by simp)
  | some nm =>
    simp only [hbn] at h
    split at h
    · rename_i hc2
      rw [Bool.and_eq_true] at hc2
      simp only [Res.ok.injEq, true_and] at h
      subst h
      exact ⟨MExt_trans (MExt_sendCmd st nm (Cmd.removeAnno st.frame.sernum)
          rfl hc2.1) (MExt_buffers_eq rfl rfl), hbn⟩
    · simp only [Res.ok.injEq, true_and] at h
      subst h
      exact ⟨MExt_buffers_eq rfl rfl, hbn⟩

theorem updateEntry_ME (st st' : NBState) (bname : String) (id : AnnoId)
    (d : Bool) (hr : regOf st bname = true) (hhr : FrameHostReg st)
    (h : updateEntry st bname id d = Res.ok () st') :
    MExt st st' ∧ st'.frame.bufName = st.frame.bufName := by
  unfold updateEntry at h
  cases hb : st.findBuf bname with
  | none => simp only [hb] at h; exact absurd h (by simp)
  | some b =>
    simp only [hb] at h
    cases hlk : lookupA b.annos id with
    | none => simp only [hlk] at h; exact absurd h (by simp)
    | some e =>
      cases e with
      | frameRef =>
        simp only [hlk] at h
        exact frame_update_ME st st' hhr h
      | anno a =>
        simp only [hlk] at h
        simp only [Res.ok.injEq, true_and] at h
        subst h
        constructor
        · refine MExt_trans (anno_update_MExt st bname a d hr) ?_
          exact MExt_modBuf _ bname _ (fun _ _ => rfl) (fun _ _ => rfl)
        · exact congrArg FrameAnno.bufName (anno_update_frame st bname a d)

theorem bulkUpdate_ME (l : List AnnoId) (st st' : NBState) (bname : String)
    (hr : regOf st bname = true) (hhr : FrameHostReg st)
    (h : bulkUpdate st bname l = Res.ok () st') :
    MExt st st' ∧ st'.frame.bufName = st.frame.bufName := by
  induction l generalizing st with
  | nil =>
    unfold bulkUpdate at h
    simp only [Res.ok.injEq, true_and] at h
    subst h
    exact ⟨MExt_refl st, rfl⟩
  | cons k t ih =>
    unfold bulkUpdate at h
    cases hu : updateEntry st bname k false with
    | err e st1 => simp only [hu] at h; exact absurd h (by simp)
    | ok u st1 =>
      obtain ⟨⟩ := u
      simp only [hu] at h
      obtain ⟨m1, f1⟩ := updateEntry_ME st st1 bname k false hr hhr hu
      obtain ⟨m2, f2⟩ := ih st1 (by rw [m1.1 bname]; exact hr)
        (FHR_of_MExt m1 f1 hhr) h
      exact ⟨MExt_trans m1 m2, f2.trans f1⟩

theorem findBuf_sc3 (st : NBState) (n1 n2 n3 nm : String) (c1 c2 c3 : Cmd) :
    (sendCmd (sendCmd (sendCmd st n1 c1) n2 c2) n3 c3).findBuf nm =
      st.findBuf nm := rfl

theorem filter3_self (bname : String) (c1 c2 c3 : Cmd) :
    (([(bname, c1), (bname, c2), (bname, c3)] : List (String × Cmd)).filter
      (fun e => e.1 == bname)).map Prod.snd = [c1, c2, c3] := by
  simp

theorem filter3_other (bname nm : String) (hne : nm ≠ bname) (c1 c2 c3 : Cmd) :
    (([(bname, c1), (bname, c2), (bname, c3)] : List (String × Cmd)).filter
      (fun e => e.1 == nm)).map Prod.snd = [] := by
  have hb : (bname == nm) = false := beq_eq_false_iff_ne.mpr (Ne.symm hne)
  simp [List.filter, hb]

theorem reg4_regOf (st : NBState) (bname : String) (b : Buffer)
    (hb : st.findBuf bname = some b) :
    ∀ nm, regOf ((sendCmd (sendCmd (sendCmd st bname (Cmd.editFile b.name))
        bname (Cmd.putBufferNumber b.name)) bname Cmd.stopDocListen).modBuf
        bname (fun bb => { bb with registered := true })) nm =
      (if nm = bname then true else regOf st nm) := by
  intro nm
  by_cases hnm : nm = bname
  · subst hnm
    rw [if_pos rfl]
    unfold regOf
    rw [findBuf_modBuf_self (sendCmd (sendCmd (sendCmd st nm
        (Cmd.editFile b.name)) nm (Cmd.putBufferNumber b.name)) nm
        Cmd.stopDocListen) nm b (fun bb => { bb with registered := true })
      (fun _ _ => rfl) hb]
  · rw [if_neg hnm]
    unfold regOf
    rw [findBuf_modBuf _ bname nm (fun bb => { bb with registered := true })
      (fun _ _ => rfl), findBuf_sc3]
    cases hx : st.findBuf nm with
    | none => rfl
    | some x =>
      have hxn : x.name = nm := findBuf_name st nm x hx
      simp only [Option.map_some']
      have hxb : (x.name == bname) = false :=
        beq_eq_false_iff_ne.mpr (by rw [hxn]; exact hnm)
      simp [hxb]

theorem reg4_trace (st : NBState) (bname : String) (b : Buffer) :
    ((sendCmd (sendCmd (sendCmd st bname (Cmd.editFile b.name))
        bname (Cmd.putBufferNumber b.name)) bname Cmd.stopDocListen).modBuf
        bname (fun bb => { bb with registered := true })).trace =
      st.trace ++ [(bname, Cmd.editFile b.name),
        (bname, Cmd.putBufferNumber b.name), (bname, Cmd.stopDocListen)] := by
  show st.trace ++ [(bname, Cmd.editFile b.name)] ++
      [(bname, Cmd.putBufferNumber b.name)] ++ [(bname, Cmd.stopDocListen)] = _
  simp [List.append_assoc]

theorem TS_register (st : NBState) (bname : String) (b : Buffer)
    (hb : st.findBuf bname = some b) (hnr : b.registered = false)
    (hts : TS st) :
    TS ((sendCmd (sendCmd (sendCmd st bname (Cmd.editFile b.name))
        bname (Cmd.putBufferNumber b.name)) bname Cmd.stopDocListen).modBuf
        bname (fun bb => { bb with registered := true })) := by
  have hname : b.name = bname := findBuf_name st bname b hb
  have hreg4 := reg4_regOf st bname b hb
  have htr := reg4_trace st bname b
  have hbt := fun nm => bufTrace_of_append st _ _ htr nm
  intro nm
  constructor
  · intro hcase
    have hrf : regOf _ nm = false := (regOf_false_iff _ nm).mpr hcase
    rw [hreg4 nm] at hrf
    by_cases hnm : nm = bname
    · rw [if_pos hnm] at hrf
      exact absurd hrf (by simp)
    · rw [if_neg hnm] at hrf
      rw [hbt nm, filter3_other bname nm hnm, List.append_nil]
      exact (hts nm).1 ((regOf_false_iff st nm).mp hrf)
  · intro b' hb' hbr'
    by_cases hnm : nm = bname
    · subst hnm
      refine ⟨[], ?_, fun c hc => absurd hc (List.not_mem_nil c)⟩
      have hempty : bufTrace st nm = [] :=
        (hts nm).1 (Or.inr ⟨b, hb, hnr⟩)
      rw [hbt nm, hempty, filter3_self, hname, List.append_nil]
      rfl
    · have hrt : regOf _ nm = true := (regOf_true_iff _ nm).mpr ⟨b', hb', hbr'⟩
      rw [hreg4 nm, if_neg hnm] at hrt
      obtain ⟨b0, hb0, hbr0⟩ := (regOf_true_iff st nm).mp hrt
      obtain ⟨t, ht, hmk⟩ := (hts nm).2 b0 hb0 hbr0
      refine ⟨t, ?_, hmk⟩
      rw [hbt nm, filter3_other bname nm hnm, List.append_nil, ht]

theorem FHR_register (st : NBState) (bname : String) (b : Buffer)
    (hb : st.findBuf bname = some b)
    (hhx : ∀ h0, st.frame.bufName = some h0 → regOf st h0 = true ∨ h0 = bname) :
    FrameHostReg ((sendCmd (sendCmd (sendCmd st bname (Cmd.editFile b.name))
        bname (Cmd.putBufferNumber b.name)) bname Cmd.stopDocListen).modBuf
        bname (fun bb => { bb with registered := true })) := by
  intro h0 hbn
  rw [reg4_regOf st bname b hb h0]
  have hbn' : st.frame.bufName = some h0 := hbn
  rcases hhx h0 hbn' with hl | he
  · by_cases hnb : h0 = bname
    · rw [if_pos hnb]
    · rw [if_neg hnb]
      exact hl
  · rw [if_pos he]

theorem buffer_update_TSF (st st' : NBState) (bname : String)
    (oid : Option AnnoId) (d : Bool) (hts : TS st)
    (hhx : ∀ h0, st.frame.bufName = some h0 → regOf st h0 = true ∨ h0 = bname)
    (h : Buffer.update st bname oid d = Res.ok () st') :
    TS st' ∧ FrameHostReg st' := by
  unfold Buffer.update at h
  cases hb : st.findBuf bname with
  | none => simp only [hb] at h; exact absurd h (by simp)
  | some b =>
    simp only [hb] at h
    by_cases hr : (!b.registered) = true
    · rw [if_pos hr] at h
      have hnr : b.registered = false := by revert hr; cases b.registered <;> simp
      have hts4 := TS_register st bname b hb hnr hts
      have fhr4 := FHR_register st bname b hb hhx
      have hr4B := reg4_regOf st bname b hb bname
      rw [if_pos rfl] at hr4B
      cases oid with
      | some id =>
        obtain ⟨m, f⟩ := updateEntry_ME _ st' bname id d hr4B fhr4 h
        exact ⟨TS_of_MExt hts4 m, FHR_of_MExt m f fhr4⟩
      | none =>
        obtain ⟨m, f⟩ := bulkUpdate_ME (keysA b.annos) _ st' bname hr4B fhr4 h
        exact ⟨TS_of_MExt hts4 m, FHR_of_MExt m f fhr4⟩
    · rw [if_neg hr] at h
      have hbr : b.registered = true := by revert hr; cases b.registered <;> simp
      have hrB : regOf st bname = true := by
        unfold regOf
        simp only [hb]
        exact hbr
      have fhr : FrameHostReg st := fun h0 hbn =>
        (hhx h0 hbn).elim (fun hl => hl) (fun he => by rw [he]; exact hrB)
      cases oid with
      | some id =>
        obtain ⟨m, f⟩ := updateEntry_ME st st' bname id d hrB fhr h
        exact ⟨TS_of_MExt hts m, FHR_of_MExt m f fhr⟩
      | none =>
        obtain ⟨m, f⟩ := bulkUpdate_ME (keysA b.annos) st st' bname hrB fhr h
        exact ⟨TS_of_MExt hts m, FHR_of_MExt m f fhr⟩

theorem regOf_append_new (st : NBState) (nm p : String) (bid : Nat) :
    regOf { st with buffers := st.buffers ++ [newBuffer p bid] } nm =
      regOf st nm := by
  unfold regOf NBState.findBuf
  dsimp only
  cases hx : st.buffers.find? (fun b => b.name == nm) with
  | some b =>
    rw [find_append_of_some st.buffers (newBuffer p bid) _ b hx]
  | none =>
    by_cases hp : ((newBuffer p bid).name == nm) = true
    · rw [find_append_none_pos st.buffers (newBuffer p bid) _ hx hp]
      rfl
    · rw [find_append_none_neg st.buffers (newBuffer p bid) _ hx hp]

theorem getitem_TSF (fs : String → Bool) (st st' : NBState) (p : String)
    (hts : TS st) (hhr : FrameHostReg st)
    (h : BufferSet.getitem fs st p = Res.ok () st') :
    TS st' ∧ FrameHostReg st' := by
  unfold BufferSet.getitem at h
  split at h
  · exact absurd h (by simp)
  · cases hx : st.findBuf p with
    | some b =>
      simp only [hx] at h
      simp only [Res.ok.injEq, true_and] at h
      subst h
      exact ⟨hts, hhr⟩
    | none =>
      simp only [hx] at h
      simp only [Res.ok.injEq, true_and] at h
      subst h
      have hm : MExt st { st with buffers :=
          st.buffers ++ [newBuffer p (st.buffers.length + 1)] } :=
        ⟨fun nm => regOf_append_new st nm p (st.buffers.length + 1),
          [], by rw [List.append_nil], fun e he => absurd he (List.not_mem_nil e)⟩
      exact ⟨TS_of_MExt hts hm, FHR_of_MExt hm rfl hhr⟩

theorem hhx_of_MExt {st stp : NBState} (hm : MExt st stp)
    (hf : stp.frame.bufName = st.frame.bufName) (hhr : FrameHostReg st)
    (bname : String) :
    ∀ h0, stp.frame.bufName = some h0 → regOf stp h0 = true ∨ h0 = bname :=
  fun h0 hbn => Or.inl (FHR_of_MExt hm hf hhr h0 hbn)

theorem buffer_add_anno_TSF (st st' : NBState) (bname : String) (id : AnnoId)
    (l : Int) (hts : TS st) (hhr : FrameHostReg st)
    (h : Buffer.add_anno st bname id l = Res.ok () st') :
    TS st' ∧ FrameHostReg st' := by
  unfold Buffer.add_anno at h
  cases hb : st.findBuf bname with
  | none => simp only [hb] at h; exact absurd h (by simp)
  | some b =>
    simp only [hb] at h
    cases hlk : lookupA b.annos id with
    | none =>
      cases id with
      | frame =>
        simp only [hlk] at h
        refine buffer_update_TSF _ st' bname (some AnnoId.frame) false
          (TS_of_MExt hts ?hm1) ?hx1 h
        case hm1 =>
          exact MExt_trans (MExt_buffers_eq rfl rfl)
            (MExt_modBuf _ bname _ (fun _ _ => rfl) (fun _ _ => rfl))
        case hx1 =>
          intro h0 hbn
          have hbn' : some bname = some h0 := hbn
          exact Or.inr (Option.some.inj hbn').symm
      | bp n =>
        simp only [hlk] at h
        refine buffer_update_TSF _ st' bname (some (AnnoId.bp n)) false
          (TS_of_MExt hts ?hm2) (hhx_of_MExt ?hm2 ?hf2 hhr bname) h
        case hf2 => rfl
        refine MExt_trans (MExt_buffers_eq rfl rfl)
          (MExt_modBuf _ bname _ ?_ ?_)
        · intro x hx
          exact (findBuf_name st bname b hb).trans hx.symm
        · intro x hx
          have hbx : b = x := by
            have hx' : st.findBuf bname = some x := hx
            rw [hb] at hx'
            exact Option.some.inj hx'
          subst hbx
          rfl
    | some e =>
      cases e with
      | frameRef =>
        simp only [hlk] at h
        refine buffer_update_TSF _ st' bname (some id) false
          (TS_of_MExt hts ?hm3) (hhx_of_MExt ?hm3 ?hf3 hhr bname) h
        case hf3 => rfl
        exact MExt_buffers_eq rfl rfl
      | anno a =>
        simp only [hlk] at h
        refine buffer_update_TSF _ st' bname (some id) false
          (TS_of_MExt hts ?hm4) (hhx_of_MExt ?hm4 ?hf4 hhr bname) h
        case hf4 => rfl
        exact MExt_modBuf _ bname _ (fun _ _ => rfl) (fun _ _ => rfl)

theorem bufferset_add_anno_TSF (fs : String → Bool) (st st' : NBState)
    (id : AnnoId) (p : String) (l : Int) (hts : TS st) (hhr : FrameHostReg st)
    (h : BufferSet.add_anno fs st id p l = Res.ok () st') :
    TS st' ∧ FrameHostReg st' := by
  unfold BufferSet.add_anno at h
  split at h
  · exact absurd h (by simp)
  split at h
  · exact absurd h (by simp)
  cases hg : BufferSet.getitem fs st p with
  | err e s1 => simp only [hg] at h; exact absurd h (by simp)
  | ok u s1 =>
    obtain ⟨⟩ := u
    simp only [hg] at h
    obtain ⟨hts1, hhr1⟩ := getitem_TSF fs st s1 p hts hhr hg
    have hm : MExt s1 { s1 with anno_dict := setA s1.anno_dict id p } :=
      MExt_buffers_eq rfl rfl
    exact buffer_add_anno_TSF _ st' p id l (TS_of_MExt hts1 hm)
      (FHR_of_MExt hm rfl hhr1) h

theorem bufferset_update_anno_TSF (st st' : NBState) (id : AnnoId) (d : Bool)
    (hts : TS st) (hhr : FrameHostReg st)
    (h : BufferSet.update_anno st id d = Res.ok () st') :
    TS st' ∧ FrameHostReg st' := by
  unfold BufferSet.update_anno at h
  cases hd : lookupA st.anno_dict id with
  | none => simp only [hd] at h; exact absurd h (by simp)
  | some nm =>
    simp only [hd] at h
    exact buffer_update_TSF st st' nm (some id) d hts
      (fun h0 hbn => Or.inl (hhr h0 hbn)) h

theorem buffer_delete_anno_TSF (st st' : NBState) (bname : String)
    (id : AnnoId) (hts : TS st) (hhr : FrameHostReg st)
    (h : Buffer.delete_anno st bname id = Res.ok () st') :
    TS st' ∧ FrameHostReg st' := by
  unfold Buffer.delete_anno at h
  cases hb : st.findBuf bname with
  | none => simp only [hb] at h; exact absurd h (by simp)
  | some b =>
    simp only [hb] at h
    cases hlk : lookupA b.annos id with
    | none => simp only [hlk] at h; exact absurd h (by simp)
    | some e =>
      cases e with
      | frameRef =>
        simp only [hlk] at h
        cases hfr : FrameAnno.remove_anno st with
        | err e2 s1 => simp only [hfr] at h; exact absurd h (by simp)
        | ok u s1 =>
          obtain ⟨⟩ := u
          simp only [hfr] at h
          simp only [Res.ok.injEq, true_and] at h
          subst h
          obtain ⟨m1, f1⟩ := frame_remove_anno_ME st s1 hfr
          by_cases hid : id = AnnoId.frame
          · rw [if_pos hid]
            have hm2 : MExt s1 (s1.modBuf bname (fun bb =>
                { bb with annos := removeA bb.annos id })) :=
              MExt_modBuf s1 bname _ (fun _ _ => rfl) (fun _ _ => rfl)
            exact ⟨TS_of_MExt hts (MExt_trans m1 hm2),
              FHR_of_MExt (MExt_trans m1 hm2) (f1 ▸ rfl) hhr⟩
          · rw [if_neg hid]
            exact ⟨TS_of_MExt hts m1, FHR_of_MExt m1 f1 hhr⟩
      | anno a =>
        simp only [hlk] at h
        simp only [Res.ok.injEq, true_and] at h
        subst h
        have m1 := remove_anno_MExt st bname a
        have m2 : MExt (Anno.remove_anno st bname a).1
            ((Anno.remove_anno st bname a).1.modBuf bname (fun bb =>
              { bb with
                annos := setA bb.annos id (AnnoEntry.anno (Anno.remove_anno st bname a).2) })) :=
          MExt_modBuf _ bname _ (fun _ _ => rfl) (fun _ _ => rfl)
        have m12 := MExt_trans m1 m2
        have hfr12 : ((Anno.remove_anno st bname a).1.modBuf bname (fun bb =>
              { bb with
                annos := setA bb.annos id (AnnoEntry.anno (Anno.remove_anno st bname a).2)
              })).frame.bufName = st.frame.bufName :=
          congrArg FrameAnno.bufName (anno_remove_anno_frame st bname a)
        by_cases hid : id = AnnoId.frame
        · rw [if_pos hid]
          have m3 := MExt_modBuf ((Anno.remove_anno st bname a).1.modBuf bname
              (fun bb => { bb with
                annos := setA bb.annos id (AnnoEntry.anno (Anno.remove_anno st bname a).2) })) bname
              (fun bb => { bb with annos := removeA bb.annos id })
              (fun _ _ => rfl) (fun _ _ => rfl)
          exact ⟨TS_of_MExt hts (MExt_trans m12 m3),
            FHR_of_MExt (MExt_trans m12 m3) hfr12 hhr⟩
        · rw [if_neg hid]
          exact ⟨TS_of_MExt hts m12, FHR_of_MExt m12 hfr12 hhr⟩

theorem bufferset_delete_anno_TSF (st st' : NBState) (id : AnnoId)
    (hts : TS st) (hhr : FrameHostReg st)
    (h : BufferSet.delete_anno st id = Res.ok () st') :
    TS st' ∧ FrameHostReg st' := by
  unfold BufferSet.delete_anno at h
  cases hd : lookupA st.anno_dict id with
  | none => simp only [hd] at h; exact absurd h (by simp)
  | some nm =>
    simp only [hd] at h
    cases hdel : Buffer.delete_anno st nm id with
    | err e s1 => simp only [hdel] at h; exact absurd h (by simp)
    | ok u s1 =>
      obtain ⟨⟩ := u
      simp only [hdel] at h
      simp only [Res.ok.injEq, true_and] at h
      subst h
      obtain ⟨hts1, hhr1⟩ := buffer_delete_anno_TSF st s1 nm id hts hhr hdel
      have hm : MExt s1 { s1 with anno_dict := removeA s1.anno_dict id } :=
        MExt_buffers_eq rfl rfl
      exact ⟨TS_of_MExt hts1 hm, FHR_of_MExt hm rfl hhr1⟩

theorem deleteList_TSF (l : List AnnoId) (st st' : NBState)
    (hts : TS st) (hhr : FrameHostReg st)
    (h : deleteList st l = Res.ok () st') :
    TS st' ∧ FrameHostReg st' := by
  induction l generalizing st with
  | nil =>
    unfold deleteList at h
    simp only [Res.ok.injEq, true_and] at h
    subst h
    exact ⟨hts, hhr⟩
  | cons k t ih =>
    unfold deleteList at h
    cases hd : BufferSet.delete_anno st k with
    | err e s1 => simp only [hd] at h; exact absurd h (by simp)
    | ok u s1 =>
      obtain ⟨⟩ := u
      simp only [hd] at h
      obtain ⟨hts1, hhr1⟩ := bufferset_delete_anno_TSF st s1 k hts hhr hd
      exact ih s1 hts1 hhr1 h

theorem remove_all_TSF (st st' : NBState) (hts : TS st) (hhr : FrameHostReg st)
    (h : BufferSet.remove_all st = Res.ok () st') :
    TS st' ∧ FrameHostReg st' := by
  unfold BufferSet.remove_all at h
  exact deleteList_TSF (keysA st.anno_dict) st st' hts hhr h

theorem show_frame_TSF (fs : String → Bool) (st st' : NBState)
    (p : Option String) (l : Int) (hts : TS st) (hhr : FrameHostReg st)
    (h : BufferSet.show_frame fs st p l = Res.ok () st') :
    TS st' ∧ FrameHostReg st' := by
  unfold BufferSet.show_frame at h
  split at h
  · exact absurd h (by simp)
  cases hdel : (if (lookupA st.anno_dict AnnoId.frame).isSome then
      BufferSet.delete_anno st AnnoId.frame else Res.ok () st) with
  | err e s1 => simp only [hdel] at h; exact absurd h (by simp)
  | ok u s1 =>
    obtain ⟨⟩ := u
    simp only [hdel] at h
    have hi1 : TS s1 ∧ FrameHostReg s1 := by
      by_cases hin : (lookupA st.anno_dict AnnoId.frame).isSome = true
      · rw [if_pos hin] at hdel
        exact bufferset_delete_anno_TSF st s1 AnnoId.frame hts hhr hdel
      · rw [if_neg hin] at hdel
        simp only [Res.ok.injEq, true_and] at hdel
        subst hdel
        exact ⟨hts, hhr⟩
    cases p with
    | none =>
      simp only [Res.ok.injEq, true_and] at h
      subst h
      exact hi1
    | some pn =>
      dsimp only at h
      by_cases hpn : pn = ""
      · rw [if_pos hpn] at h
        simp only [Res.ok.injEq, true_and] at h
        subst h
        exact hi1
      · rw [if_neg hpn] at h
        exact bufferset_add_anno_TSF fs s1 st' AnnoId.frame pn l hi1.1 hi1.2 h

theorem update_bp_TSF (st s1 : NBState) (id : AnnoId) (d : Bool) (v : Bool)
    (hts : TS st) (hhr : FrameHostReg st)
    (h : BufferSet.update_bp st id d = Res.ok v s1) :
    TS s1 ∧ FrameHostReg s1 := by
  unfold BufferSet.update_bp at h
  split at h
  · cases hu : BufferSet.update_anno st id d with
    | err e s2 => simp only [hu] at h; exact absurd h (by simp)
    | ok u s2 =>
      obtain ⟨⟩ := u
      simp only [hu] at h
      simp only [Res.ok.injEq] at h
      obtain ⟨hv, hs⟩ := h
      subst hs
      exact bufferset_update_anno_TSF st s2 id d hts hhr hu
  · simp only [Res.ok.injEq] at h
    obtain ⟨hv, hs⟩ := h
    subst hs
    exact ⟨hts, hhr⟩

theorem traceInv_init (c0 c1 c2 : String) : TraceInv (initState c0 c1 c2) := by
  constructor
  · intro nm
    constructor
    · intro hcase
      rfl
    · intro b hb hbr
      exact absurd hb (by simp [initState, NBState.findBuf])
  · intro h0 hbn
    exact absurd hbn (by simp [initState])

theorem traceInv_step (fs : String → Bool) (st st' : NBState) (op : Op)
    (hi : TraceInv st) (h : runOp fs st op = Res.ok () st') : TraceInv st' := by
  obtain ⟨hts, hhr⟩ := hi
  cases op with
  | add_anno id p l => exact bufferset_add_anno_TSF fs st st' id p l hts hhr h
  | add_bp n p l =>
    simp only [runOp] at h
    unfold BufferSet.add_bp at h
    split at h
    · exact absurd h (by simp)
    · exact bufferset_add_anno_TSF fs st st' (AnnoId.bp n) p l hts hhr h
  | update_anno id d => exact bufferset_update_anno_TSF st st' id d hts hhr h
  | update_bp id d =>
    simp only [runOp] at h
    cases hu : BufferSet.update_bp st id d with
    | err e s2 => simp only [hu] at h; exact absurd h (by simp)
    | ok v s2 =>
      simp only [hu] at h
      simp only [Res.ok.injEq, true_and] at h
      subst h
      exact update_bp_TSF st s2 id d v hts hhr hu
  | delete_anno id => exact bufferset_delete_anno_TSF st st' id hts hhr h
  | show_frame p l => exact show_frame_TSF fs st st' p l hts hhr h
  | remove_all => exact remove_all_TSF st st' hts hhr h
  | getitem p => exact getitem_TSF fs st st' p hts hhr h
  | buf_update p oid d =>
    exact buffer_update_TSF st st' p oid d hts
      (fun h0 hbn => Or.inl (hhr h0 hbn)) h

theorem reachable_traceInv (fs : String → Bool) (c0 c1 c2 : String)
    (st : NBState) (h : Reachable fs c0 c1 c2 st) : TraceInv st := by
  induction h with
  | init => exact traceInv_init c0 c1 c2
  | step hr hstep ih => exact traceInv_step fs _ _ _ ih hstep

/-- C9: across every successful sequence of public operations, the
commands recorded for a buffer appear in the trace in emission order,
and each buffer's command stream is either empty (while the buffer is
unregistered or does not exist) or consists of the three registration
commands `editFile`, `putBufferNumber`, `stopDocumentListen` first,
followed exclusively by marker commands; consequently the registration
block precedes every marker command sent to that buffer, and no marker
command (`defineAnnoType`, `addAnno`, `removeAnno`, `setDot`) is ever
sent for an unregistered buffer. -/
theorem c9_ordering (fs : String → Bool) (c0 c1 c2 : String) (st : NBState)
    (h : Reachable fs c0 c1 c2 st) :
    TS st ∧
    ∀ nm c, (nm, c) ∈ st.trace → isMarkerCmd c = true →
      ∃ b, st.findBuf nm = some b ∧ b.registered = true := by
  obtain ⟨hts, _⟩ := reachable_traceInv fs c0 c1 c2 st h
  refine ⟨hts, ?_⟩
  intro nm c hmem hmk
  by_cases hreg : regOf st nm = true
  · exact (regOf_true_iff st nm).mp hreg
  · exfalso
    have hrf : regOf st nm = false := by
      cases hv : regOf st nm
      · rfl
      · exact absurd hv hreg
    have hempty : bufTrace st nm = [] :=
      (hts nm).1 ((regOf_false_iff st nm).mp hrf)
    have hcmem : c ∈ bufTrace st nm := by
      unfold bufTrace
      refine List.mem_map.mpr ⟨(nm, c), ?_, rfl⟩
      exact List.mem_filter.mpr ⟨hmem, by simp⟩
    rw [hempty] at hcmem
    exact absurd hcmem (List.not_mem_nil c)

theorem c9_witness :
    TS c2base ∧
    ∀ nm c, (nm, c) ∈ c2base.trace → isMarkerCmd c = true →
      ∃ b, c2base.findBuf nm = some b ∧ b.registered = true :=
  c9_ordering fs0 "c0" "c1" "c2" c2base
    (Reachable.step Reachable.init
      (show runOp fs0 (initState "c0" "c1" "c2") (Op.add_bp 1 "/a" 5) =
        Res.ok () c2base by decide))
